import Mathlib

/-!
# Verification of the MJOLNIR geometric binning and tessellation engine

This file gives a shallow embedding, in Lean 4, of the core binning and
tessellation routines of `MJOLNIR/Data/DataSet.py` (the line/plane cut engine
`cut1D`, `cut1DE`, `cutQE`, `cutQELine`, the convex-hull boundary builder
`convexHullPoints`, the 3D voxelizer `calculateGrid3D`/`calculateBins`/
`binData3D`, the duplicate-point merge step of `plotA3A4`, and the Voronoi
tessellation driver `voronoiTessellation`), together with theorems settling
the specification claims about them.

Modelling conventions:
* NumPy float arrays are modelled as `List ℚ`: all arithmetic is exact.
  Floating-point rounding is idealized away.
* Boolean-mask filtering over parallel arrays is modelled by filtering the
  list of indices `List.range n`, which keeps the parallel arrays aligned
  exactly as NumPy's mask indexing does.
* Functions that `raise` are modelled with `Except String`; the message is the
  (formatted) message of the `AttributeError`/`IndexError` raised.
* External geometric libraries (scipy's `Voronoi`/`ConvexHull`/`KDTree`,
  shapely polygons) are not code of this repository; where a claim depends
  only on control flow they are abstracted into an explicit oracle structure,
  and where a claim needs real geometry (`convexHullPoints`) the polygon
  produced by scipy's convex hull is modelled by Mathlib's `convexHull` of
  the same candidate points.
-/

namespace MJOLNIR

/-! ## Bin-edge constructor (`_tools.binEdges`)

The implementation lives in `MJOLNIR/_tools.py`, which is not among the
reviewed sources; only its callers and a test are.  It is therefore modelled
from the spec (§4.1). -/

/-- Walk of the bin-edge constructor over the sorted points.  `lastEdge` is the
most recently placed edge, `prev` the previously visited point.  A new edge is
started whenever the accumulated span since the last edge reaches the
tolerance `t`, placed midway between the two neighbouring points; the final
edge is always placed at `last point + t/2`. -/
def binEdgesWalk (t : ℚ) (lastEdge prev : ℚ) : List ℚ → List ℚ
  | [] => [prev + t / 2]
  | v :: rest =>
    if t ≤ v - lastEdge then
      ((prev + v) / 2) :: binEdgesWalk t ((prev + v) / 2) v rest
    else
      binEdgesWalk t lastEdge v rest

/-- Modelled from the spec: §4.1 bin-edge constructor (`_tools.binEdges`, whose
source is not part of the reviewed files).  "sort positions; walk consecutive
gaps; start a new edge whenever accumulated span since last edge ≥ t; final
edge always placed at `last point + t/2` and the first at `first point - t/2`.
Edge case: M=0 returns an empty edge array." -/
def binEdges (values : List ℚ) (t : ℚ) : List ℚ :=
  match List.insertionSort (· ≤ ·) values with
  | [] => []
  | x :: xs => (x - t / 2) :: binEdgesWalk t (x - t / 2) x xs

theorem binEdges_nil (t : ℚ) : binEdges [] t = [] := rfl

theorem binEdges_eq_cons {values : List ℚ} {t x : ℚ} {xs : List ℚ}
    (hs : List.insertionSort (· ≤ ·) values = x :: xs) :
    binEdges values t = (x - t / 2) :: binEdgesWalk t (x - t / 2) x xs := by
  unfold binEdges
  rw [hs]

theorem binEdgesWalk_ne_nil (t lastEdge prev : ℚ) (l : List ℚ) :
    binEdgesWalk t lastEdge prev l ≠ [] := by
  induction l generalizing lastEdge prev with
  | nil => simp [binEdgesWalk]
  | cons v rest ih =>
    by_cases h : t ≤ v - lastEdge <;> simp [binEdgesWalk, h, ih]

theorem binEdgesWalk_getLastD (t lastEdge prev d : ℚ) (l : List ℚ) :
    (binEdgesWalk t lastEdge prev l).getLastD d = l.getLastD prev + t / 2 := by
  induction l generalizing lastEdge prev d with
  | nil => simp [binEdgesWalk]
  | cons v rest ih =>
    by_cases hc : t ≤ v - lastEdge
    · rw [show binEdgesWalk t lastEdge prev (v :: rest)
          = ((prev + v) / 2) :: binEdgesWalk t ((prev + v) / 2) v rest by
        simp [binEdgesWalk, hc]]
      rw [List.getLastD_cons, ih, List.getLastD_cons]
    · rw [show binEdgesWalk t lastEdge prev (v :: rest)
          = binEdgesWalk t lastEdge v rest by simp [binEdgesWalk, hc]]
      rw [ih, List.getLastD_cons]

/-- Along the walk the produced edges form a `≤`-chain starting at `lastEdge`,
provided the points are sorted and `lastEdge` does not exceed them. -/
theorem binEdgesWalk_chain (t : ℚ) (ht : 0 ≤ t) :
    ∀ (l : List ℚ) (lastEdge prev : ℚ), lastEdge ≤ prev →
      List.Chain' (· ≤ ·) (prev :: l) →
      List.Chain' (· ≤ ·) (lastEdge :: binEdgesWalk t lastEdge prev l) := by
  intro l
  induction l with
  | nil =>
    intro lastEdge prev hlp _
    simp only [binEdgesWalk]
    constructor
    · linarith
    · simp
  | cons v rest ih =>
    intro lastEdge prev hlp hchain
    have hpv : prev ≤ v := (List.chain'_cons.mp hchain).1
    have hvrest : List.Chain' (· ≤ ·) (v :: rest) := (List.chain'_cons.mp hchain).2
    by_cases hc : t ≤ v - lastEdge
    · rw [show binEdgesWalk t lastEdge prev (v :: rest)
          = ((prev + v) / 2) :: binEdgesWalk t ((prev + v) / 2) v rest by
        simp [binEdgesWalk, hc]]
      have h1 : lastEdge ≤ (prev + v) / 2 := by linarith
      have h2 : (prev + v) / 2 ≤ v := by linarith
      exact List.chain'_cons.mpr ⟨h1, ih ((prev + v) / 2) v h2 hvrest⟩
    · rw [show binEdgesWalk t lastEdge prev (v :: rest)
          = binEdgesWalk t lastEdge v rest by simp [binEdgesWalk, hc]]
      exact ih lastEdge v (le_trans hlp hpv) hvrest

theorem binEdges_chain (values : List ℚ) (t : ℚ) (ht : 0 ≤ t) :
    List.Chain' (· ≤ ·) (binEdges values t) := by
  have hsorted := List.sorted_insertionSort (· ≤ ·) values
  cases hs : List.insertionSort (· ≤ ·) values with
  | nil => unfold binEdges; rw [hs]; simp
  | cons x xs =>
    rw [hs] at hsorted
    rw [binEdges_eq_cons hs]
    exact binEdgesWalk_chain t ht (l := xs) (x - t / 2) x (by linarith) hsorted.chain'

theorem binEdges_ne_nil (values : List ℚ) (t : ℚ) (h : values ≠ []) :
    binEdges values t ≠ [] := by
  cases hs : List.insertionSort (· ≤ ·) values with
  | nil =>
    exfalso
    have hperm := List.perm_insertionSort (· ≤ ·) values
    rw [hs] at hperm
    exact h hperm.symm.eq_nil
  | cons x xs =>
    rw [binEdges_eq_cons hs]
    simp

/-- Every member of a list sorted by `≤` is at most its `getLastD`. -/
theorem sorted_le_getLastD :
    ∀ (l : List ℚ) (d : ℚ), List.Sorted (· ≤ ·) l → ∀ v ∈ l, v ≤ l.getLastD d := by
  intro l
  induction l with
  | nil => intro d _ v hv; simp at hv
  | cons x xs ih =>
    intro d hsorted v hv
    rw [List.getLastD_cons]
    rcases List.mem_cons.mp hv with h1 | h2
    · subst h1
      cases xs with
      | nil => simp
      | cons y ys =>
        have hxy : v ≤ y := (List.sorted_cons.mp hsorted).1 y (by simp)
        have hy : y ≤ (y :: ys).getLastD v := by
          apply ih v (List.sorted_cons.mp hsorted).2
          simp
        exact le_trans hxy hy
    · exact ih x (List.sorted_cons.mp hsorted).2 v h2

/-- Every input point is at least the first produced bin edge. -/
theorem binEdges_headD_le (values : List ℚ) (t : ℚ) (ht : 0 ≤ t)
    (v : ℚ) (hv : v ∈ values) :
    (binEdges values t).headD 0 ≤ v := by
  have hperm := List.perm_insertionSort (· ≤ ·) values
  have hsorted := List.sorted_insertionSort (· ≤ ·) values
  have hvmem : v ∈ List.insertionSort (· ≤ ·) values := hperm.mem_iff.mpr hv
  cases hs : List.insertionSort (· ≤ ·) values with
  | nil => rw [hs] at hvmem; simp at hvmem
  | cons x xs =>
    rw [hs] at hvmem hsorted
    rw [binEdges_eq_cons hs]
    have hxv : x ≤ v := by
      rcases List.mem_cons.mp hvmem with h | h
      · exact le_of_eq h.symm
      · exact (List.sorted_cons.mp hsorted).1 v h
    simp only [List.headD_cons]
    linarith

/-- Every input point is at most the last produced bin edge. -/
theorem binEdges_le_getLastD (values : List ℚ) (t : ℚ) (ht : 0 ≤ t)
    (v : ℚ) (hv : v ∈ values) :
    v ≤ (binEdges values t).getLastD 0 := by
  have hperm := List.perm_insertionSort (· ≤ ·) values
  have hsorted := List.sorted_insertionSort (· ≤ ·) values
  have hvmem : v ∈ List.insertionSort (· ≤ ·) values := hperm.mem_iff.mpr hv
  cases hs : List.insertionSort (· ≤ ·) values with
  | nil => rw [hs] at hvmem; simp at hvmem
  | cons x xs =>
    rw [hs] at hvmem hsorted
    rw [binEdges_eq_cons hs, List.getLastD_cons, binEdgesWalk_getLastD]
    have hlast : v ≤ (x :: xs).getLastD 0 := sorted_le_getLastD (x :: xs) 0 hsorted v hvmem
    rw [List.getLastD_cons] at hlast
    linarith

/-! ## Histograms (`np.histogram` / `np.histogramdd`)

NumPy histograms over explicit bin edges: every bin is half-open
`[e_i, e_{i+1})` except the last, which is closed.  `cut1D` histograms over
`bins=[lenbins, orthobins]` where the orthogonal axis has a single bin
`[-width/2, width/2]` (being the last bin of its axis, it is closed on both
sides); the result of shape `(n, 1)` is modelled by the flat list of its `n`
entries.  NumPy additionally raises when the edges are not monotonically
increasing; the callers below only ever pass `binEdges` output or voxel
grids, which are proved monotone (`binEdges_chain`, `claim_C6`). -/

/-- Membership of the 2D sample `p.1 = (along, ortho)` in the along-axis bin
`[e0, e1)` (closed also on the right when it is the last bin) and in the single
orthogonal bin `[o0, o1]`. -/
def inBin2 (lastBin : Bool) (e0 e1 o0 o1 : ℚ) (p : (ℚ × ℚ) × ℚ) : Bool :=
  decide (e0 ≤ p.1.1) && (if lastBin then decide (p.1.1 ≤ e1) else decide (p.1.1 < e1))
    && decide (o0 ≤ p.1.2) && decide (p.1.2 ≤ o1)

/-- The per-bin weight sums of `np.histogramdd` over `[edges, [o0, o1]]`,
walking the along-axis edges; `sw` is the list of (sample, weight) pairs. -/
def hist2Aux (o0 o1 : ℚ) : List ℚ → List ((ℚ × ℚ) × ℚ) → List ℚ
  | e0 :: e1 :: rest, sw =>
      ((sw.filter (inBin2 rest.isEmpty e0 e1 o0 o1)).map (fun p => p.2)).sum
        :: hist2Aux o0 o1 (e1 :: rest) sw
  | _, _ => []

/-- `np.histogramdd(samples, bins=[edges, [o0,o1]], weights=w)[0]`, flattened
over the trivial orthogonal axis. -/
def hist2 (edges : List ℚ) (o0 o1 : ℚ) (samples : List (ℚ × ℚ)) (w : List ℚ) : List ℚ :=
  hist2Aux o0 o1 edges (samples.zip w)

theorem hist2Aux_length (o0 o1 : ℚ) :
    ∀ (edges : List ℚ) (sw : List ((ℚ × ℚ) × ℚ)),
      (hist2Aux o0 o1 edges sw).length = edges.length - 1 := by
  intro edges
  induction edges with
  | nil => intro sw; simp [hist2Aux]
  | cons e0 tl ih =>
    intro sw
    cases tl with
    | nil => simp [hist2Aux]
    | cons e1 rest =>
      simp only [hist2Aux, List.length_cons]
      rw [ih]
      simp

/-- Splitting a filtered weight sum along a partition of the predicate. -/
theorem filter_map_sum_partition {α : Type} (l : List α) (P Q R : α → Bool) (f : α → ℚ)
    (h : ∀ x ∈ l, (R x = true ↔ (P x = true ∨ Q x = true)) ∧ ¬(P x = true ∧ Q x = true)) :
    ((l.filter P).map f).sum + ((l.filter Q).map f).sum = ((l.filter R).map f).sum := by
  induction l with
  | nil => simp
  | cons x tl ih =>
    have hx := h x (by simp)
    have htl : ∀ y ∈ tl, (R y = true ↔ (P y = true ∨ Q y = true)) ∧ ¬(P y = true ∧ Q y = true) :=
      fun y hy => h y (by simp [hy])
    simp only [List.filter_cons]
    by_cases hP : P x = true
    · have hQ : Q x = false := by
        have := hx.2
        cases hq : Q x
        · rfl
        · exact absurd ⟨hP, hq⟩ this
      have hR : R x = true := hx.1.mpr (Or.inl hP)
      simp only [hP, hQ, hR, if_true, if_false, Bool.false_eq_true, List.map_cons,
        List.sum_cons]
      rw [← ih htl]
      ring
    · have hP' : P x = false := by
        cases hp : P x
        · rfl
        · exact absurd hp hP
      by_cases hQ : Q x = true
      · have hR : R x = true := hx.1.mpr (Or.inr hQ)
        simp only [hP', hQ, hR, if_true, if_false, Bool.false_eq_true, List.map_cons,
          List.sum_cons]
        rw [← ih htl]
        ring
      · have hQ' : Q x = false := by
          cases hq : Q x
          · rfl
          · exact absurd hq hQ
        have hR : R x = false := by
          cases hr : R x
          · rfl
          · rcases hx.1.mp hr with h1 | h1
            · exact absurd h1 hP
            · exact absurd h1 hQ
        simp only [hP', hQ', hR, if_false, Bool.false_eq_true]
        exact ih htl

theorem getLastD_cons_irrel (a d e : ℚ) (l : List ℚ) :
    (a :: l).getLastD d = (a :: l).getLastD e := by
  cases l with
  | nil => simp
  | cons b tl => simp only [List.getLastD_cons]

/-- Conservation of the 2D histogram: the total over all along-axis bins is the
weight sum of the samples lying between the first and last edge and inside the
orthogonal bin.  No sample is double counted and none inside the range is
dropped. -/
theorem hist2Aux_sum (o0 o1 : ℚ) :
    ∀ (rest : List ℚ) (e0 e1 L : ℚ) (sw : List ((ℚ × ℚ) × ℚ)),
      List.Chain' (· ≤ ·) (e0 :: e1 :: rest) →
      (e1 :: rest).getLastD 0 = L →
      (hist2Aux o0 o1 (e0 :: e1 :: rest) sw).sum
        = ((sw.filter (fun p => decide (e0 ≤ p.1.1) && decide (p.1.1 ≤ L)
              && decide (o0 ≤ p.1.2) && decide (p.1.2 ≤ o1))).map (fun p => p.2)).sum := by
  intro rest
  induction rest with
  | nil =>
    intro e0 e1 L sw _ hL
    simp only [List.getLastD_cons, List.getLastD_nil] at hL
    subst hL
    simp only [hist2Aux, List.sum_cons, List.sum_nil, add_zero]
    congr 1
  | cons e2 rest2 ih =>
    intro e0 e1 L sw hchain hL
    have h01 : e0 ≤ e1 := (List.chain'_cons.mp hchain).1
    have hchain1 : List.Chain' (· ≤ ·) (e1 :: e2 :: rest2) := (List.chain'_cons.mp hchain).2
    have hsorted1 : List.Sorted (· ≤ ·) (e1 :: e2 :: rest2) :=
      List.chain'_iff_pairwise.mp hchain1
    have h1L : e1 ≤ L := by
      have := sorted_le_getLastD (e1 :: e2 :: rest2) 0 hsorted1 e1 (by simp)
      rwa [hL] at this
    have hL' : (e2 :: rest2).getLastD 0 = L := by
      rw [List.getLastD_cons] at hL
      rw [getLastD_cons_irrel e2 0 e1 rest2]
      exact hL
    rw [show hist2Aux o0 o1 (e0 :: e1 :: e2 :: rest2) sw
        = ((sw.filter (inBin2 false e0 e1 o0 o1)).map (fun p => p.2)).sum
            :: hist2Aux o0 o1 (e1 :: e2 :: rest2) sw by
      simp [hist2Aux]]
    rw [List.sum_cons, ih e1 e2 L sw hchain1 hL']
    apply filter_map_sum_partition
    intro p _
    simp only [inBin2, Bool.and_eq_true, decide_eq_true_eq, if_false, Bool.if_false_left]
    constructor
    · constructor
      · rintro ⟨⟨⟨ha, hb⟩, hc⟩, hd⟩
        by_cases hlt : p.1.1 < e1
        · exact Or.inl ⟨⟨⟨ha, by simpa using hlt⟩, hc⟩, hd⟩
        · exact Or.inr ⟨⟨⟨by linarith [not_lt.mp hlt], hb⟩, hc⟩, hd⟩
      · rintro (⟨⟨⟨ha, hb⟩, hc⟩, hd⟩ | ⟨⟨⟨ha, hb⟩, hc⟩, hd⟩)
        · have hb' : p.1.1 < e1 := by simpa using hb
          exact ⟨⟨⟨ha, by linarith⟩, hc⟩, hd⟩
        · exact ⟨⟨⟨by linarith, hb⟩, hc⟩, hd⟩
    · rintro ⟨⟨⟨⟨ha, hb⟩, hc⟩, hd⟩, ⟨⟨⟨ha', hb'⟩, hc'⟩, hd'⟩⟩
      have : p.1.1 < e1 := by simpa using hb
      linarith

/-- Membership of the 1D sample `p.1` in the bin `[e0, e1)` (closed also on
the right when it is the last bin): `np.histogram` semantics. -/
def inBin1 (lastBin : Bool) (e0 e1 : ℚ) (p : ℚ × ℚ) : Bool :=
  decide (e0 ≤ p.1) && (if lastBin then decide (p.1 ≤ e1) else decide (p.1 < e1))

/-- The per-bin weight sums of `np.histogram` over `edges`; `sw` is the list
of (sample, weight) pairs. -/
def hist1Aux : List ℚ → List (ℚ × ℚ) → List ℚ
  | e0 :: e1 :: rest, sw =>
      ((sw.filter (inBin1 rest.isEmpty e0 e1)).map (fun p => p.2)).sum
        :: hist1Aux (e1 :: rest) sw
  | _, _ => []

/-- `np.histogram(samples, bins=edges, weights=w)[0]`. -/
def hist1 (samples : List ℚ) (edges : List ℚ) (w : List ℚ) : List ℚ :=
  hist1Aux edges (samples.zip w)

/-! ## 1D line cut (`cut1D`, DataSet.py 1415-1522)

`positions` is the triple of flattened arrays `(qx, qy, energy)`.  The source
normalizes the direction vector by `dirLength = np.linalg.norm(q2-q1)`; since
that Euclidean length is in general irrational, it is passed here as an
explicit argument `dirLength` (exact whenever the segment length is rational,
as in all concrete instances below), keeping the embedding in exact rational
arithmetic.  Boolean masks over the parallel arrays are modelled by filtering
the index list `List.range n`. -/

/-- Positions as three flattened parallel arrays `(qx, qy, energy)`. -/
abbrev Pos3 := List ℚ × List ℚ × List ℚ

/-- `dirvec = (q2-q1)/dirLength`. -/
def dirvecOf (q1 q2 : ℚ × ℚ) (dirLength : ℚ) : ℚ × ℚ :=
  ((q2.1 - q1.1) / dirLength, (q2.2 - q1.2) / dirLength)

/-- `orthovec = [dirvec[1], -dirvec[0]]`. -/
def orthovecOf (q1 q2 : ℚ × ℚ) (dirLength : ℚ) : ℚ × ℚ :=
  ((dirvecOf q1 q2 dirLength).2, -(dirvecOf q1 q2 dirLength).1)

/-- Indices passing `insideEnergy = logical_and(positions[2]<=Emax, positions[2]>=Emin)`. -/
def energyFilter (E : List ℚ) (Emin Emax : ℚ) : List ℕ :=
  (List.range E.length).filter (fun i => decide (E.getD i 0 ≤ Emax ∧ Emin ≤ E.getD i 0))

/-- First row of `propos = ProjectMatrix @ (positions2D - q1)`: the coordinate
along the cut direction of point `i`. -/
def alongCoord (positions : Pos3) (q1 q2 : ℚ × ℚ) (dirLength : ℚ) (i : ℕ) : ℚ :=
  (dirvecOf q1 q2 dirLength).1 * (positions.1.getD i 0 - q1.1)
    + (dirvecOf q1 q2 dirLength).2 * (positions.2.1.getD i 0 - q1.2)

/-- Second row of `propos`: the coordinate orthogonal to the cut direction. -/
def orthoCoord (positions : Pos3) (q1 q2 : ℚ × ℚ) (dirLength : ℚ) (i : ℕ) : ℚ :=
  (orthovecOf q1 q2 dirLength).1 * (positions.1.getD i 0 - q1.1)
    + (orthovecOf q1 q2 dirLength).2 * (positions.2.1.getD i 0 - q1.2)

/-- Return bundle of `cut1D`: the data list
`[intensity, MonitorCount, Normalization, normcounts]` and the bin list
`[binpositionsTotal, orthopos, [Emin, Emax]]`. -/
structure Cut1DResult where
  intensity : List ℚ
  monitorCount : List ℚ
  normalization : List ℚ
  normcounts : List ℚ
  binpositions : List (ℚ × ℚ × ℚ)
  orthopos : List (ℚ × ℚ)
  energyRange : ℚ × ℚ
  deriving Repr, DecidableEq

/-- `cut1D(positions, I, Norm, Monitor, q1, q2, width, minPixel, Emin, Emax,
plotCoverage, extend)`.  The `plotCoverage` branch only draws a figure and is
omitted. -/
def cut1D (positions : Pos3) (I Norm Monitor : List ℚ) (q1 q2 : ℚ × ℚ)
    (dirLength : ℚ) (width minPixel Emin Emax : ℚ) (extend : Bool) : Cut1DResult :=
  let filteredE := energyFilter positions.2.2 Emin Emax
  if filteredE.length = 0 then
    ⟨[], [], [], [], [], [], (Emin, Emax)⟩
  else
    let along := alongCoord positions q1 q2 dirLength
    let ortho := orthoCoord positions q1 q2 dirLength
    let kept := if extend then filteredE
      else filteredE.filter (fun i => decide (0 < along i ∧ along i < dirLength))
    let insideW := kept.filter
      (fun i => decide (-(width / 2) < ortho i ∧ ortho i < width / 2))
    let lenbins := binEdges (insideW.map along) minPixel
    let orthopos := [(-(width / 2) * (orthovecOf q1 q2 dirLength).1,
                      -(width / 2) * (orthovecOf q1 q2 dirLength).2),
                     ((width / 2) * (orthovecOf q1 q2 dirLength).1,
                      (width / 2) * (orthovecOf q1 q2 dirLength).2)]
    if lenbins.length = 0 then
      ⟨[], [], [], [], [], orthopos, (Emin, Emax)⟩
    else
      let samples := kept.map (fun i => (along i, ortho i))
      let normcounts := hist2 lenbins (-(width / 2)) (width / 2) samples
        (kept.map (fun _ => (1 : ℚ)))
      let intensity := hist2 lenbins (-(width / 2)) (width / 2) samples
        (kept.map (fun i => I.getD i 0))
      let monitorCount := hist2 lenbins (-(width / 2)) (width / 2) samples
        (kept.map (fun i => Monitor.getD i 0))
      let normalization := hist2 lenbins (-(width / 2)) (width / 2) samples
        (kept.map (fun i => Norm.getD i 0))
      let binpositions := lenbins.map
        (fun l => (l * (dirvecOf q1 q2 dirLength).1 + q1.1,
                   l * (dirvecOf q1 q2 dirLength).2 + q1.2))
      ⟨intensity, monitorCount, normalization, normcounts,
        binpositions.map (fun p => (p.1, p.2, (Emin + Emax) / 2)), orthopos, (Emin, Emax)⟩

theorem binEdges_two_le (values : List ℚ) (t : ℚ) (h : values ≠ []) :
    ∃ e0 e1 rest, binEdges values t = e0 :: e1 :: rest := by
  cases hs : List.insertionSort (· ≤ ·) values with
  | nil =>
    exfalso
    have hperm := List.perm_insertionSort (· ≤ ·) values
    rw [hs] at hperm
    exact h hperm.symm.eq_nil
  | cons x xs =>
    rw [binEdges_eq_cons hs]
    cases hw : binEdgesWalk t (x - t / 2) x xs with
    | nil => exact absurd hw (binEdgesWalk_ne_nil _ _ _ _)
    | cons e1 rest => exact ⟨x - t / 2, e1, rest, by simp [hw]⟩

/-- Histogram conservation for `cut1D` with `extend=true`: when every
energy-filtered point passes the orthogonal width filter, the summed per-bin
intensity, monitor and normalization histograms equal the corresponding sums
over the energy-filtered points. -/
theorem cut1D_conservation (positions : Pos3) (I Norm Monitor : List ℚ)
    (q1 q2 : ℚ × ℚ) (dirLength width minPixel Emin Emax : ℚ)
    (hpix : 0 < minPixel)
    (hwidth : ∀ i ∈ energyFilter positions.2.2 Emin Emax,
        -(width / 2) < orthoCoord positions q1 q2 dirLength i ∧
          orthoCoord positions q1 q2 dirLength i < width / 2) :
    (cut1D positions I Norm Monitor q1 q2 dirLength width minPixel Emin Emax true).intensity.sum
        = ((energyFilter positions.2.2 Emin Emax).map (fun i => I.getD i 0)).sum ∧
    (cut1D positions I Norm Monitor q1 q2 dirLength width minPixel Emin Emax true).monitorCount.sum
        = ((energyFilter positions.2.2 Emin Emax).map (fun i => Monitor.getD i 0)).sum ∧
    (cut1D positions I Norm Monitor q1 q2 dirLength width minPixel Emin Emax
        true).normalization.sum
        = ((energyFilter positions.2.2 Emin Emax).map (fun i => Norm.getD i 0)).sum := by
  by_cases hF : energyFilter positions.2.2 Emin Emax = []
  · refine ⟨?_, ?_, ?_⟩ <;> simp [cut1D, hF]
  · have hFlen : ¬ (energyFilter positions.2.2 Emin Emax).length = 0 := by
      simpa [List.length_eq_zero] using hF
    set F := energyFilter positions.2.2 Emin Emax with hFdef
    set along := alongCoord positions q1 q2 dirLength with halong
    set ortho := orthoCoord positions q1 q2 dirLength with hortho
    have hinsideW : F.filter
        (fun i => decide (-(width / 2) < ortho i ∧ ortho i < width / 2)) = F := by
      apply List.filter_eq_self.mpr
      intro i hi
      exact decide_eq_true (hwidth i hi)
    have hmapne : F.map along ≠ [] := by
      simpa using hF
    obtain ⟨e0, e1, rest, hbins⟩ := binEdges_two_le (F.map along) minPixel hmapne
    have hbinsne : ¬ (binEdges (F.map along) minPixel).length = 0 := by
      rw [hbins]; simp
    have key : ∀ w : ℕ → ℚ,
        (hist2 (binEdges (F.map along) minPixel) (-(width / 2)) (width / 2)
          (F.map (fun i => (along i, ortho i))) (F.map w)).sum = (F.map w).sum := by
      intro w
      simp only [hist2, hbins]
      have hzip : (F.map (fun i => (along i, ortho i))).zip (F.map w)
          = F.map (fun i => ((along i, ortho i), w i)) := by
        rw [List.zip_map']
      rw [hzip]
      have hchain : List.Chain' (· ≤ ·) (e0 :: e1 :: rest) := by
        rw [← hbins]; exact binEdges_chain _ _ (le_of_lt hpix)
      rw [hist2Aux_sum (-(width / 2)) (width / 2) rest e0 e1 ((e1 :: rest).getLastD 0)
        _ hchain rfl]
      have hall : (F.map (fun i => ((along i, ortho i), w i))).filter
          (fun p => decide (e0 ≤ p.1.1) && decide (p.1.1 ≤ (e1 :: rest).getLastD 0)
            && decide (-(width / 2) ≤ p.1.2) && decide (p.1.2 ≤ width / 2))
          = F.map (fun i => ((along i, ortho i), w i)) := by
        apply List.filter_eq_self.mpr
        intro p hp
        obtain ⟨i, hiF, hip⟩ := List.mem_map.mp hp
        have hmem : along i ∈ F.map along := List.mem_map.mpr ⟨i, hiF, rfl⟩
        have h1 : e0 ≤ along i := by
          have := binEdges_headD_le (F.map along) minPixel (le_of_lt hpix) (along i) hmem
          rwa [hbins, List.headD_cons] at this
        have h2 : along i ≤ (e1 :: rest).getLastD 0 := by
          have := binEdges_le_getLastD (F.map along) minPixel (le_of_lt hpix) (along i) hmem
          rw [hbins, List.getLastD_cons] at this
          rwa [getLastD_cons_irrel e1 e0 0 rest] at this
        have h3 := hwidth i hiF
        subst hip
        simp only [Bool.and_eq_true, decide_eq_true_eq]
        refine ⟨⟨⟨h1, h2⟩, ?_⟩, ?_⟩
        · exact le_of_lt h3.1
        · exact le_of_lt h3.2
      rw [hall, List.map_map]
      rfl
    refine ⟨?_, ?_, ?_⟩ <;>
    · simp only [cut1D, if_true]
      rw [if_neg hFlen]
      simp only [← hFdef, ← halong, ← hortho, hinsideW]
      rw [if_neg hbinsne]
      exact key _

/-- C2: for every 1D cut with `extend=true` in which every energy-filtered
point also lies within the orthogonal width bounds, the sum of the per-bin
intensity histogram returned by `cut1D` equals exactly the sum of the
intensity values of the energy-filtered points: no point is dropped by the
along-axis bin edges and no point is counted in two bins. -/
theorem claim_C2 (positions : Pos3) (I Norm Monitor : List ℚ)
    (q1 q2 : ℚ × ℚ) (dirLength width minPixel Emin Emax : ℚ)
    (hpix : 0 < minPixel)
    (hwidth : ∀ i ∈ energyFilter positions.2.2 Emin Emax,
        -(width / 2) < orthoCoord positions q1 q2 dirLength i ∧
          orthoCoord positions q1 q2 dirLength i < width / 2) :
    (cut1D positions I Norm Monitor q1 q2 dirLength width minPixel Emin Emax true).intensity.sum
      = ((energyFilter positions.2.2 Emin Emax).map (fun i => I.getD i 0)).sum :=
  (cut1D_conservation positions I Norm Monitor q1 q2 dirLength width minPixel
    Emin Emax hpix hwidth).1

/-- Witness for C2 at a concrete two-point cut. -/
theorem claim_C2_witness :
    (0 : ℚ) < 1 / 10 ∧
    (∀ i ∈ energyFilter ([(0 : ℚ), 1], [(0 : ℚ), 0], [(1 : ℚ)/2, 1/2]).2.2 0 1,
        -((1 : ℚ) / 2) < orthoCoord ([0, 1], [0, 0], [1/2, 1/2]) (0, 0) (1, 0) 1 i ∧
          orthoCoord ([0, 1], [0, 0], [1/2, 1/2]) (0, 0) (1, 0) 1 i < 1 / 2) ∧
    (cut1D ([0, 1], [0, 0], [1/2, 1/2]) [3, 5] [1, 1] [1, 1] (0, 0) (1, 0) 1 1 (1/10) 0 1
        true).intensity.sum
      = ((energyFilter ([(0 : ℚ), 1], [(0 : ℚ), 0], [(1 : ℚ)/2, 1/2]).2.2 0 1).map
          (fun i => [(3 : ℚ), 5].getD i 0)).sum :=
  ⟨by norm_num, by with_unfolding_all decide,
    claim_C2 ([0, 1], [0, 0], [1/2, 1/2]) [3, 5] [1, 1] [1, 1] (0, 0) (1, 0) 1 1 (1/10) 0 1
      (by norm_num) (by with_unfolding_all decide)⟩

/-! ## Constant-Q energy cut (`cut1DE`, DataSet.py 1525-1592)

`cut1DE` begins with `if len(q.shape)==1: q.shape = (2,1)`, an in-place
mutation of the caller-owned NumPy array `q`.  To make that observable the
`q` argument is modelled as an array with an explicit shape, and the function
returns the final state of `q` alongside its result.  `distToQ < width` with
`distToQ = np.linalg.norm(positions[:2]-q)` is expressed exactly over ℚ as
`0 < width ∧ distToQ² < width²`, which is equivalent for real arithmetic. -/

/-- A NumPy array with an explicit shape. -/
structure NPVec where
  shape : List ℕ
  data : List ℚ
  deriving Repr, DecidableEq

/-- The `q.shape = (2,1)` coercion at the top of `cut1DE` (DataSet.py
1563-1564).  NumPy raises when the array does not hold exactly 2 entries. -/
def reshapeQ (q : NPVec) : Except String NPVec :=
  if q.shape.length = 1 then
    if q.data.length = 2 then Except.ok ⟨[2, 1], q.data⟩
    else Except.error "cannot reshape array of given size into shape (2,1)"
  else Except.ok q

/-- Return bundle of `cut1DE`: the data list
`[intensity, MonitorCount, Normalization, normcounts]` and the bin list,
which is `[bins]` normally and the literal `[[E1, E2]]` in the degenerate
zero-bin return. -/
structure Cut1DEResult where
  intensity : List ℚ
  monitorCount : List ℚ
  normalization : List ℚ
  normcounts : List ℚ
  binList : List (List ℚ)
  deriving Repr, DecidableEq

/-- `cut1DE(positions, I, Norm, Monitor, E1, E2, q, width, minPixel)`.  The
second component of the returned pair is the final state of the caller's `q`
array (mutated in place by the source). -/
def cut1DE (positions : Pos3) (I Norm Monitor : List ℚ) (E1 E2 : ℚ) (q : NPVec)
    (width minPixel : ℚ) : Except String (Cut1DEResult × NPVec) :=
  match reshapeQ q with
  | Except.error e => Except.error e
  | Except.ok qr =>
    let qx := qr.data.getD 0 0
    let qy := qr.data.getD 1 0
    let n := positions.2.2.length
    let insideQ : ℕ → Bool := fun i => decide (0 < width ∧
      (positions.1.getD i 0 - qx) ^ 2 + (positions.2.1.getD i 0 - qy) ^ 2 < width ^ 2)
    let insideE : ℕ → Bool := fun i => decide (positions.2.2.getD i 0 ≤ E2 ∧
      E1 ≤ positions.2.2.getD i 0)
    if ((List.range n).filter insideE).length = 0 then
      Except.error "No points are within the provided energy limits."
    else if ((List.range n).filter insideQ).length = 0 then
      Except.error "No points are inside selected q range."
    else
      let allInside := (List.range n).filter (fun i => insideQ i && insideE i)
      let Energies := allInside.map (fun i => positions.2.2.getD i 0)
      let bins := binEdges Energies minPixel
      if bins.length = 0 then
        Except.ok (⟨[], [], [], [], [[E1, E2]]⟩, qr)
      else
        let normcounts := hist1 Energies bins (allInside.map (fun _ => (1 : ℚ)))
        let intensity := hist1 Energies bins (allInside.map (fun i => I.getD i 0))
        let monitorCount := hist1 Energies bins (allInside.map (fun i => Monitor.getD i 0))
        let normalization := hist1 Energies bins (allInside.map (fun i => Norm.getD i 0))
        Except.ok (⟨intensity, monitorCount, normalization, normcounts, [bins]⟩, qr)

/-- C3 counterexample: `cut1DE` with an energy window above all data raises
`AttributeError('No points are within the provided energy limits.')` instead
of returning a typed empty result (the repository's own test
`test_DataSet_1DcutE` asserts this raise). -/
theorem claim_C3_counterexample :
    cut1DE ([0], [0], [1/2]) [3] [1] [1] 500 700 ⟨[2], [0, 0]⟩ 1 (1/10)
      = Except.error "No points are within the provided energy limits." := by
  with_unfolding_all rfl

/-- C3 (amended): a standalone `cut1D` whose energy window contains no point
returns the typed empty result with zero-length aggregate arrays, but
`cut1DE` raises an `AttributeError` whenever zero points pass its energy
filter. -/
theorem claim_C3 :
    (∀ (positions : Pos3) (I Norm Monitor : List ℚ) (q1 q2 : ℚ × ℚ)
        (dirLength width minPixel Emin Emax : ℚ) (extend : Bool),
      energyFilter positions.2.2 Emin Emax = [] →
      cut1D positions I Norm Monitor q1 q2 dirLength width minPixel Emin Emax extend
        = ⟨[], [], [], [], [], [], (Emin, Emax)⟩) ∧
    (∀ (positions : Pos3) (I Norm Monitor : List ℚ) (E1 E2 : ℚ) (q qr : NPVec)
        (width minPixel : ℚ),
      reshapeQ q = Except.ok qr →
      ((List.range positions.2.2.length).filter (fun i =>
        decide (positions.2.2.getD i 0 ≤ E2 ∧ E1 ≤ positions.2.2.getD i 0))) = [] →
      cut1DE positions I Norm Monitor E1 E2 q width minPixel
        = Except.error "No points are within the provided energy limits.") := by
  constructor
  · intro positions I Norm Monitor q1 q2 dirLength width minPixel Emin Emax extend hE
    simp [cut1D, hE]
  · intro positions I Norm Monitor E1 E2 q qr width minPixel hq hE
    have hlen : ((List.range positions.2.2.length).filter (fun i =>
        decide (positions.2.2.getD i 0 ≤ E2 ∧ E1 ≤ positions.2.2.getD i 0))).length = 0 := by
      rw [hE]; rfl
    simp only [cut1DE, hq]
    rw [if_pos hlen]

/-- Witness for C3 at concrete inputs: an empty-window `cut1D` and an
empty-window `cut1DE`. -/
theorem claim_C3_witness :
    (energyFilter ([(0 : ℚ)], [(0 : ℚ)], [(1 : ℚ)/2]).2.2 500 700 = [] ∧
      cut1D ([0], [0], [1/2]) [3] [1] [1] (0, 0) (1, 0) 1 1 (1/10) 500 700 true
        = ⟨[], [], [], [], [], [], (500, 700)⟩) ∧
    (reshapeQ ⟨[2], [0, 0]⟩ = Except.ok ⟨[2, 1], [0, 0]⟩ ∧
      cut1DE ([0], [0], [1/2]) [3] [1] [1] 500 700 ⟨[2], [0, 0]⟩ 1 (1/10)
        = Except.error "No points are within the provided energy limits.") :=
  ⟨⟨by with_unfolding_all decide,
    claim_C3.1 ([0], [0], [1/2]) [3] [1] [1] (0, 0) (1, 0) 1 1 (1/10) 500 700 true
      (by with_unfolding_all decide)⟩,
   ⟨by with_unfolding_all rfl,
    claim_C3.2 ([0], [0], [1/2]) [3] [1] [1] 500 700 ⟨[2], [0, 0]⟩ ⟨[2, 1], [0, 0]⟩ 1 (1/10)
      (by with_unfolding_all rfl) (by with_unfolding_all decide)⟩⟩

/-- C9 counterexample: a call to `cut1DE` with a 1-D `q` array of shape `(2,)`
returns with the caller's `q` reshaped in place to `(2,1)`: the input array is
not left unchanged in shape. -/
theorem claim_C9_counterexample :
    (cut1DE ([0], [0], [1/2]) [3] [1] [1] 0 1 ⟨[2], [0, 0]⟩ 1 (1/10)).toOption.map
        (fun p => p.2.shape) = some [2, 1] ∧
    (⟨[2], [(0 : ℚ), 0]⟩ : NPVec).shape ≠ [2, 1] := by
  constructor
  · with_unfolding_all rfl
  · with_unfolding_all decide

/-- C9 (amended): `cut1DE` leaves the contents of `q` (and all other input
arrays) unchanged, but mutates the shape of the caller's `q` array in place:
a 1-D `q` comes back with shape `(2,1)`; a 2-D `q` keeps its shape. -/
theorem claim_C9 (positions : Pos3) (I Norm Monitor : List ℚ) (E1 E2 : ℚ)
    (q : NPVec) (width minPixel : ℚ) (r : Cut1DEResult) (qOut : NPVec)
    (h : cut1DE positions I Norm Monitor E1 E2 q width minPixel = Except.ok (r, qOut)) :
    qOut.data = q.data ∧
      qOut.shape = (if q.shape.length = 1 then [2, 1] else q.shape) := by
  have hq : ∃ qr, reshapeQ q = Except.ok qr ∧ qOut = qr := by
    cases hr : reshapeQ q with
    | error e =>
      simp only [cut1DE, hr] at h
      exact absurd h (by simp)
    | ok qr =>
      refine ⟨qr, rfl, ?_⟩
      simp only [cut1DE, hr] at h
      split at h
      · exact absurd h (by simp)
      · split at h
        · exact absurd h (by simp)
        · split at h
          · injection h with h'
            injection h' with _ h2'
            exact h2'.symm
          · injection h with h'
            injection h' with _ h2'
            exact h2'.symm
  obtain ⟨qr, hr, hout⟩ := hq
  subst hout
  unfold reshapeQ at hr
  by_cases hs : q.shape.length = 1
  · rw [if_pos hs] at hr
    by_cases hd : q.data.length = 2
    · rw [if_pos hd] at hr
      injection hr with hr
      subst hr
      simp [hs]
    · rw [if_neg hd] at hr
      exact absurd hr (by simp)
  · rw [if_neg hs] at hr
    injection hr with hr
    subst hr
    simp [hs]

/-- Witness for C9 at a concrete call with a 1-D `q` of shape `(2,)`. -/
theorem claim_C9_witness :
    (cut1DE ([0], [0], [1/2]) [3] [1] [1] 0 1 ⟨[2], [0, 0]⟩ 1 (1/10)
      = Except.ok (⟨[3], [1], [1], [1], [[9/20, 11/20]]⟩, ⟨[2, 1], [0, 0]⟩)) ∧
    ((⟨[2, 1], [(0 : ℚ), 0]⟩ : NPVec).data = (⟨[2], [(0 : ℚ), 0]⟩ : NPVec).data ∧
      (⟨[2, 1], [(0 : ℚ), 0]⟩ : NPVec).shape
        = (if (⟨[2], [(0 : ℚ), 0]⟩ : NPVec).shape.length = 1 then [2, 1]
            else (⟨[2], [(0 : ℚ), 0]⟩ : NPVec).shape)) :=
  ⟨by with_unfolding_all rfl,
    claim_C9 ([0], [0], [1/2]) [3] [1] [1] 0 1 ⟨[2], [0, 0]⟩ 1 (1/10)
      ⟨[3], [1], [1], [1], [[9/20, 11/20]]⟩ ⟨[2, 1], [0, 0]⟩
      (by with_unfolding_all rfl)⟩

/-! ## Q-E plane cut (`cutQE`, DataSet.py 1786-1846) and multi-segment path
cut (`DataSet.cutQELine`, DataSet.py 856-929 / `DataSet.plotCutQELine`,
DataSet.py 933-1005)

`cutQE` performs one `cut1D` per consecutive pair of energy-bin edges and
skips slices whose intensity comes back empty; the source's append-loop is
expressed as filter-then-map over the slice list, which produces the same
lists in the same order.  `binDistance` entries are
`np.linalg.norm(centerPos[:,:2]-q1, axis=1)`; since Euclidean norms are
irrational they are recorded as squared distances (a strictly monotone
transform of the source's values; no claim depends on the values, only on the
lists' lengths).  `cutQELine` is embedded in its `'qxqy'` format branch (the
RLU branch applies the external sample transform, an excluded collaborator);
as with `cut1D`, the per-segment Euclidean lengths are the explicit argument
`dirLengths`. -/

/-- Midpoints of consecutive bin positions, `0.5*(P[0][:-1]+P[0][1:])`. -/
def midpoints3 (l : List (ℚ × ℚ × ℚ)) : List (ℚ × ℚ × ℚ) :=
  List.zipWith (fun a b => ((a.1 + b.1) / 2, (a.2.1 + b.2.1) / 2, (a.2.2 + b.2.2) / 2))
    l l.tail

/-- Return bundle of `cutQE`: the four per-slice data lists, the per-slice bin
lists, the per-slice bin centers, and the per-slice distances from `q1`. -/
structure CutQEResult where
  intensityArray : List (List ℚ)
  monitorArray : List (List ℚ)
  normalizationArray : List (List ℚ)
  normcountArray : List (List ℚ)
  returnpositions : List (List (ℚ × ℚ × ℚ) × List (ℚ × ℚ) × (ℚ × ℚ))
  centerPos : List (List (ℚ × ℚ × ℚ))
  binDistance : List (List ℚ)
  deriving Repr, DecidableEq

/-- The slice results of `cutQE`: one `cut1D` per consecutive energy-bin pair. -/
def cutQESlices (positions : Pos3) (I Norm Monitor : List ℚ) (q1 q2 : ℚ × ℚ)
    (dirLength width minPix : ℚ) (EnergyBins : List ℚ) (extend : Bool) :
    List Cut1DResult :=
  (List.range (EnergyBins.length - 1)).map (fun i =>
    cut1D positions I Norm Monitor q1 q2 dirLength width minPix
      (EnergyBins.getD i 0) (EnergyBins.getD (i + 1) 0) extend)

/-- `cutQE(positions, I, Norm, Monitor, q1, q2, width, minPix, EnergyBins,
extend)`: consecutive constant-energy `cut1D` slices, skipping slices with
empty intensity. -/
def cutQE (positions : Pos3) (I Norm Monitor : List ℚ) (q1 q2 : ℚ × ℚ)
    (dirLength width minPix : ℚ) (EnergyBins : List ℚ) (extend : Bool) : CutQEResult :=
  let kept := (cutQESlices positions I Norm Monitor q1 q2 dirLength width minPix
    EnergyBins extend).filter (fun r => decide (¬ r.intensity.length = 0))
  { intensityArray := kept.map (fun r => r.intensity)
    monitorArray := kept.map (fun r => r.monitorCount)
    normalizationArray := kept.map (fun r => r.normalization)
    normcountArray := kept.map (fun r => r.normcounts)
    returnpositions := kept.map (fun r => (r.binpositions, r.orthopos, r.energyRange))
    centerPos := kept.map (fun r => midpoints3 r.binpositions)
    binDistance := kept.map (fun r => (midpoints3 r.binpositions).map
      (fun c => (c.1 - q1.1) ^ 2 + (c.2.1 - q1.2) ^ 2)) }

/-- `DataSet.cutQELine(QPoints, EnergyBins, width, minPixel, format='qxqy')`:
raises when fewer than 2 Q points are given, otherwise runs `cutQE` with
`extend=False` between each consecutive waypoint pair and collects the
per-segment results (the source stacks the four components into parallel
object arrays; the bundles are kept zipped here). -/
def cutQELine (positions : Pos3) (I Norm Monitor : List ℚ)
    (QPoints : List (ℚ × ℚ)) (dirLengths : List ℚ) (EnergyBins : List ℚ)
    (width minPixel : ℚ) : Except String (List CutQEResult) :=
  if QPoints.length < 2 then
    Except.error "Number of Q points given is less than 2."
  else
    Except.ok ((List.range (QPoints.length - 1)).map (fun i =>
      cutQE positions I Norm Monitor (QPoints.getD i (0, 0)) (QPoints.getD (i + 1) (0, 0))
        (dirLengths.getD i 0) width minPixel EnergyBins false))

/-- The message formatted for one offending segment of `plotCutQELine`
(formatting of the numbers follows Lean's `ToString ℚ` rather than NumPy's
float formatting). -/
def emptySegmentMessage (qA qB : ℚ × ℚ) (E0 E1 : ℚ) : String :=
  "No data points found between (" ++ toString qA.1 ++ ", " ++ toString qA.2
    ++ ") and (" ++ toString qB.1 ++ ", " ++ toString qB.2
    ++ ") with energies between " ++ toString E0 ++ " and " ++ toString E1 ++ "."

/-- `emptyIndex` of `plotCutQELine`: the segments whose `binDistance` list is
completely empty. -/
def emptySegmentIndex (segs : List CutQEResult) : List ℕ :=
  (List.range segs.length).filter (fun i =>
    decide ((segs.getD i ⟨[], [], [], [], [], [], []⟩).binDistance.length = 0))

/-- The data-relevant prefix of `DataSet.plotCutQELine`: run `cutQELine`, then
raise one combined error naming every offending segment's waypoint pair and
the energy window when any per-segment result set is completely empty.  The
subsequent axis/figure plotting is omitted; on success the cut data is
returned unchanged. -/
def plotCutQELine (positions : Pos3) (I Norm Monitor : List ℚ)
    (QPoints : List (ℚ × ℚ)) (dirLengths : List ℚ) (EnergyBins : List ℚ)
    (width minPixel : ℚ) : Except String (List CutQEResult) :=
  match cutQELine positions I Norm Monitor QPoints dirLengths EnergyBins width minPixel with
  | Except.error e => Except.error e
  | Except.ok segs =>
    if (emptySegmentIndex segs).length ≠ 0 then
      Except.error (String.intercalate "\n" ((emptySegmentIndex segs).map (fun idx =>
        emptySegmentMessage (QPoints.getD idx (0, 0)) (QPoints.getD (idx + 1) (0, 0))
          (EnergyBins.getD 0 0) (EnergyBins.getD (EnergyBins.length - 1) 0))))
    else
      Except.ok segs

/-- C4 counterexample: a two-waypoint `cutQELine` whose single segment finds
no data returns normally with a completely empty per-segment result set
instead of failing: the combined empty-segment error lives in
`plotCutQELine`, not in `cutQELine`. -/
theorem claim_C4_counterexample :
    (cutQELine ([0], [0], [5]) [3] [1] [1] [(0, 0), (1, 0)] [1] [0, 1] 1 (1/10)).toOption.map
        (fun segs => segs.map (fun s => s.binDistance.length)) = some [0] := by
  with_unfolding_all rfl

/-- C4 (amended): `cutQELine` fails when fewer than 2 waypoints are given, but
it does not itself detect empty segments; the plotting wrapper
`plotCutQELine` is what fails with one combined error listing every offending
segment's waypoint pair and energy window whenever any per-segment result set
is completely empty. -/
theorem claim_C4 :
    (∀ (positions : Pos3) (I Norm Monitor : List ℚ) (QPoints : List (ℚ × ℚ))
        (dirLengths EnergyBins : List ℚ) (width minPixel : ℚ),
      QPoints.length < 2 →
      cutQELine positions I Norm Monitor QPoints dirLengths EnergyBins width minPixel
        = Except.error "Number of Q points given is less than 2.") ∧
    (∀ (positions : Pos3) (I Norm Monitor : List ℚ) (QPoints : List (ℚ × ℚ))
        (dirLengths EnergyBins : List ℚ) (width minPixel : ℚ) (segs : List CutQEResult),
      cutQELine positions I Norm Monitor QPoints dirLengths EnergyBins width minPixel
        = Except.ok segs →
      emptySegmentIndex segs ≠ [] →
      plotCutQELine positions I Norm Monitor QPoints dirLengths EnergyBins width minPixel
        = Except.error (String.intercalate "\n" ((emptySegmentIndex segs).map (fun idx =>
            emptySegmentMessage (QPoints.getD idx (0, 0)) (QPoints.getD (idx + 1) (0, 0))
              (EnergyBins.getD 0 0) (EnergyBins.getD (EnergyBins.length - 1) 0))))) := by
  constructor
  · intro positions I Norm Monitor QPoints dirLengths EnergyBins width minPixel hlt
    simp [cutQELine, hlt]
  · intro positions I Norm Monitor QPoints dirLengths EnergyBins width minPixel segs hok hne
    have hlen : (emptySegmentIndex segs).length ≠ 0 := by
      simpa [List.length_eq_zero] using hne
    simp only [plotCutQELine, hok]
    rw [if_pos hlen]

/-- Witness for C4: the two-waypoint segment of the counterexample raises the
combined message through `plotCutQELine`, and a single-waypoint call fails. -/
theorem claim_C4_witness :
    (([((0 : ℚ), (0 : ℚ))] : List (ℚ × ℚ)).length < 2 ∧
      cutQELine ([0], [0], [5]) [3] [1] [1] [(0, 0)] [1] [0, 1] 1 (1/10)
        = Except.error "Number of Q points given is less than 2.") ∧
    (∃ segs,
      cutQELine ([0], [0], [5]) [3] [1] [1] [(0, 0), (1, 0)] [1] [0, 1] 1 (1/10)
        = Except.ok segs ∧
      emptySegmentIndex segs ≠ [] ∧
      plotCutQELine ([0], [0], [5]) [3] [1] [1] [(0, 0), (1, 0)] [1] [0, 1] 1 (1/10)
        = Except.error (String.intercalate "\n" ((emptySegmentIndex segs).map (fun idx =>
            emptySegmentMessage (([((0 : ℚ), (0 : ℚ)), (1, 0)]).getD idx (0, 0))
              (([((0 : ℚ), (0 : ℚ)), (1, 0)]).getD (idx + 1) (0, 0))
              (([(0 : ℚ), 1]).getD 0 0) (([(0 : ℚ), 1]).getD (([(0 : ℚ), 1]).length - 1) 0))))) := by
  refine ⟨⟨by decide, claim_C4.1 ([0], [0], [5]) [3] [1] [1] [(0, 0)] [1] [0, 1] 1 (1/10)
    (by decide)⟩, ?_⟩
  refine ⟨cutQE ([0], [0], [5]) [3] [1] [1] (0, 0) (1, 0) 1 1 (1/10) [0, 1] false :: [], ?_, ?_, ?_⟩
  · with_unfolding_all rfl
  · with_unfolding_all decide
  · exact claim_C4.2 ([0], [0], [5]) [3] [1] [1] [(0, 0), (1, 0)] [1] [0, 1] 1 (1/10)
      _ (by with_unfolding_all rfl) (by with_unfolding_all decide)

/-- With a nonempty energy filter and every filtered point inside the width
bounds, the intensity list of `cut1D` with `extend=true` is nonempty (so
`cutQE` does not skip the slice). -/
theorem cut1D_intensity_ne_nil (positions : Pos3) (I Norm Monitor : List ℚ)
    (q1 q2 : ℚ × ℚ) (dirLength width minPixel Emin Emax : ℚ)
    (hpix : 0 < minPixel)
    (hwidth : ∀ i ∈ energyFilter positions.2.2 Emin Emax,
        -(width / 2) < orthoCoord positions q1 q2 dirLength i ∧
          orthoCoord positions q1 q2 dirLength i < width / 2)
    (hF : energyFilter positions.2.2 Emin Emax ≠ []) :
    (cut1D positions I Norm Monitor q1 q2 dirLength width minPixel Emin Emax
      true).intensity ≠ [] := by
  have hFlen : ¬ (energyFilter positions.2.2 Emin Emax).length = 0 := by
    simpa [List.length_eq_zero] using hF
  set F := energyFilter positions.2.2 Emin Emax with hFdef
  set along := alongCoord positions q1 q2 dirLength with halong
  set ortho := orthoCoord positions q1 q2 dirLength with hortho
  have hinsideW : F.filter
      (fun i => decide (-(width / 2) < ortho i ∧ ortho i < width / 2)) = F := by
    apply List.filter_eq_self.mpr
    intro i hi
    exact decide_eq_true (hwidth i hi)
  have hmapne : F.map along ≠ [] := by simpa using hF
  obtain ⟨e0, e1, rest, hbins⟩ := binEdges_two_le (F.map along) minPixel hmapne
  have hbinsne : ¬ (binEdges (F.map along) minPixel).length = 0 := by
    rw [hbins]; simp
  simp only [cut1D, if_true]
  rw [if_neg hFlen]
  simp only [← hFdef, ← halong, ← hortho, hinsideW]
  rw [if_neg hbinsne]
  have hl : (hist2 (binEdges (F.map along) minPixel) (-(width / 2)) (width / 2)
      (F.map (fun i => (along i, ortho i))) (F.map (fun i => I.getD i 0))).length
      = (binEdges (F.map along) minPixel).length - 1 := hist2Aux_length _ _ _ _
  intro hcontra
  have hcontra2 : hist2 (binEdges (F.map along) minPixel) (-(width / 2)) (width / 2)
      (F.map (fun i => (along i, ortho i))) (F.map (fun i => I.getD i 0)) = [] := hcontra
  have hlen0 := congrArg List.length hcontra2
  rw [hl, hbins] at hlen0
  simp at hlen0

/-- C10: the per-slice energy filter of `cutQE` (inherited from `cut1D`) is
inclusive at both endpoints, so a point whose energy equals an interior edge
of the supplied energy-bin list passes the energy filter of both adjacent
slices, both slices appear in `cutQE`'s output, and the point's intensity,
monitor and normalization contribute to the summed histograms of both slices
rather than exactly one. -/
theorem claim_C10 (positions : Pos3) (I Norm Monitor : List ℚ) (q1 q2 : ℚ × ℚ)
    (dirLength width minPix : ℚ) (EnergyBins : List ℚ) (i k : ℕ)
    (hi : i + 2 < EnergyBins.length)
    (hpix : 0 < minPix)
    (hE01 : EnergyBins.getD i 0 ≤ EnergyBins.getD (i + 1) 0)
    (hE12 : EnergyBins.getD (i + 1) 0 ≤ EnergyBins.getD (i + 2) 0)
    (hk : k < positions.2.2.length)
    (hkE : positions.2.2.getD k 0 = EnergyBins.getD (i + 1) 0)
    (hw1 : ∀ j ∈ energyFilter positions.2.2 (EnergyBins.getD i 0) (EnergyBins.getD (i + 1) 0),
        -(width / 2) < orthoCoord positions q1 q2 dirLength j ∧
          orthoCoord positions q1 q2 dirLength j < width / 2)
    (hw2 : ∀ j ∈ energyFilter positions.2.2 (EnergyBins.getD (i + 1) 0)
          (EnergyBins.getD (i + 2) 0),
        -(width / 2) < orthoCoord positions q1 q2 dirLength j ∧
          orthoCoord positions q1 q2 dirLength j < width / 2) :
    k ∈ energyFilter positions.2.2 (EnergyBins.getD i 0) (EnergyBins.getD (i + 1) 0) ∧
    k ∈ energyFilter positions.2.2 (EnergyBins.getD (i + 1) 0) (EnergyBins.getD (i + 2) 0) ∧
    (cut1D positions I Norm Monitor q1 q2 dirLength width minPix
        (EnergyBins.getD i 0) (EnergyBins.getD (i + 1) 0) true).intensity
      ∈ (cutQE positions I Norm Monitor q1 q2 dirLength width minPix
          EnergyBins true).intensityArray ∧
    (cut1D positions I Norm Monitor q1 q2 dirLength width minPix
        (EnergyBins.getD (i + 1) 0) (EnergyBins.getD (i + 2) 0) true).intensity
      ∈ (cutQE positions I Norm Monitor q1 q2 dirLength width minPix
          EnergyBins true).intensityArray ∧
    ((cut1D positions I Norm Monitor q1 q2 dirLength width minPix
        (EnergyBins.getD i 0) (EnergyBins.getD (i + 1) 0) true).intensity.sum
      = ((energyFilter positions.2.2 (EnergyBins.getD i 0)
          (EnergyBins.getD (i + 1) 0)).map (fun j => I.getD j 0)).sum ∧
    (cut1D positions I Norm Monitor q1 q2 dirLength width minPix
        (EnergyBins.getD i 0) (EnergyBins.getD (i + 1) 0) true).monitorCount.sum
      = ((energyFilter positions.2.2 (EnergyBins.getD i 0)
          (EnergyBins.getD (i + 1) 0)).map (fun j => Monitor.getD j 0)).sum ∧
    (cut1D positions I Norm Monitor q1 q2 dirLength width minPix
        (EnergyBins.getD i 0) (EnergyBins.getD (i + 1) 0) true).normalization.sum
      = ((energyFilter positions.2.2 (EnergyBins.getD i 0)
          (EnergyBins.getD (i + 1) 0)).map (fun j => Norm.getD j 0)).sum) ∧
    ((cut1D positions I Norm Monitor q1 q2 dirLength width minPix
        (EnergyBins.getD (i + 1) 0) (EnergyBins.getD (i + 2) 0) true).intensity.sum
      = ((energyFilter positions.2.2 (EnergyBins.getD (i + 1) 0)
          (EnergyBins.getD (i + 2) 0)).map (fun j => I.getD j 0)).sum ∧
    (cut1D positions I Norm Monitor q1 q2 dirLength width minPix
        (EnergyBins.getD (i + 1) 0) (EnergyBins.getD (i + 2) 0) true).monitorCount.sum
      = ((energyFilter positions.2.2 (EnergyBins.getD (i + 1) 0)
          (EnergyBins.getD (i + 2) 0)).map (fun j => Monitor.getD j 0)).sum ∧
    (cut1D positions I Norm Monitor q1 q2 dirLength width minPix
        (EnergyBins.getD (i + 1) 0) (EnergyBins.getD (i + 2) 0) true).normalization.sum
      = ((energyFilter positions.2.2 (EnergyBins.getD (i + 1) 0)
          (EnergyBins.getD (i + 2) 0)).map (fun j => Norm.getD j 0)).sum) := by
  have hk1 : k ∈ energyFilter positions.2.2 (EnergyBins.getD i 0)
      (EnergyBins.getD (i + 1) 0) := by
    apply List.mem_filter.mpr
    refine ⟨List.mem_range.mpr hk, ?_⟩
    rw [decide_eq_true_eq, hkE]
    exact ⟨le_refl _, hE01⟩
  have hk2 : k ∈ energyFilter positions.2.2 (EnergyBins.getD (i + 1) 0)
      (EnergyBins.getD (i + 2) 0) := by
    apply List.mem_filter.mpr
    refine ⟨List.mem_range.mpr hk, ?_⟩
    rw [decide_eq_true_eq, hkE]
    exact ⟨hE12, le_refl _⟩
  have hF1 : energyFilter positions.2.2 (EnergyBins.getD i 0)
      (EnergyBins.getD (i + 1) 0) ≠ [] := fun h => by rw [h] at hk1; simp at hk1
  have hF2 : energyFilter positions.2.2 (EnergyBins.getD (i + 1) 0)
      (EnergyBins.getD (i + 2) 0) ≠ [] := fun h => by rw [h] at hk2; simp at hk2
  have hne1 := cut1D_intensity_ne_nil positions I Norm Monitor q1 q2 dirLength width minPix
    (EnergyBins.getD i 0) (EnergyBins.getD (i + 1) 0) hpix hw1 hF1
  have hne2 := cut1D_intensity_ne_nil positions I Norm Monitor q1 q2 dirLength width minPix
    (EnergyBins.getD (i + 1) 0) (EnergyBins.getD (i + 2) 0) hpix hw2 hF2
  have hmem : ∀ a : ℕ, a < EnergyBins.length - 1 →
      (cut1D positions I Norm Monitor q1 q2 dirLength width minPix
        (EnergyBins.getD a 0) (EnergyBins.getD (a + 1) 0) true).intensity ≠ [] →
      (cut1D positions I Norm Monitor q1 q2 dirLength width minPix
        (EnergyBins.getD a 0) (EnergyBins.getD (a + 1) 0) true).intensity
        ∈ (cutQE positions I Norm Monitor q1 q2 dirLength width minPix
            EnergyBins true).intensityArray := by
    intro a ha hane
    apply List.mem_map.mpr
    refine ⟨cut1D positions I Norm Monitor q1 q2 dirLength width minPix
      (EnergyBins.getD a 0) (EnergyBins.getD (a + 1) 0) true, ?_, rfl⟩
    apply List.mem_filter.mpr
    constructor
    · exact List.mem_map.mpr ⟨a, List.mem_range.mpr ha, rfl⟩
    · rw [decide_eq_true_eq]
      simpa [List.length_eq_zero] using hane
  refine ⟨hk1, hk2, ?_, ?_, ?_, ?_⟩
  · exact hmem i (by omega) hne1
  · exact hmem (i + 1) (by omega) hne2
  · exact cut1D_conservation positions I Norm Monitor q1 q2 dirLength width minPix
      (EnergyBins.getD i 0) (EnergyBins.getD (i + 1) 0) hpix hw1
  · exact cut1D_conservation positions I Norm Monitor q1 q2 dirLength width minPix
      (EnergyBins.getD (i + 1) 0) (EnergyBins.getD (i + 2) 0) hpix hw2

/-- Witness for C10: a point with energy exactly at the interior edge `1` of
the bin list `[0, 1, 2]` appears in both adjacent slices of `cutQE`. -/
theorem claim_C10_witness :
    ((0 : ℕ) + 2 < ([(0 : ℚ), 1, 2] : List ℚ).length ∧ (0 : ℚ) < 1 / 10) ∧
    0 ∈ energyFilter [(1 : ℚ)] (([(0 : ℚ), 1, 2]).getD 0 0) (([(0 : ℚ), 1, 2]).getD 1 0) ∧
    0 ∈ energyFilter [(1 : ℚ)] (([(0 : ℚ), 1, 2]).getD 1 0) (([(0 : ℚ), 1, 2]).getD 2 0) ∧
    (cut1D ([0], [0], [1]) [3] [1] [1] (0, 0) (1, 0) 1 1 (1/10)
        (([(0 : ℚ), 1, 2]).getD 0 0) (([(0 : ℚ), 1, 2]).getD 1 0) true).intensity
      ∈ (cutQE ([0], [0], [1]) [3] [1] [1] (0, 0) (1, 0) 1 1 (1/10)
          [0, 1, 2] true).intensityArray ∧
    (cut1D ([0], [0], [1]) [3] [1] [1] (0, 0) (1, 0) 1 1 (1/10)
        (([(0 : ℚ), 1, 2]).getD 1 0) (([(0 : ℚ), 1, 2]).getD 2 0) true).intensity
      ∈ (cutQE ([0], [0], [1]) [3] [1] [1] (0, 0) (1, 0) 1 1 (1/10)
          [0, 1, 2] true).intensityArray := by
  have H := claim_C10 ([0], [0], [1]) [3] [1] [1] (0, 0) (1, 0) 1 1 (1/10) [0, 1, 2] 0 0
    (by decide) (by norm_num) (by with_unfolding_all decide) (by with_unfolding_all decide)
    (by decide) (by with_unfolding_all rfl) (by with_unfolding_all decide)
    (by with_unfolding_all decide)
  exact ⟨⟨by decide, by norm_num⟩, H.1, H.2.1, H.2.2.1, H.2.2.2.1⟩

/-! ## Convex-hull boundary builder (`convexHullPoints`, DataSet.py 3082-3098)

The candidate points fed to scipy's `ConvexHull` are built exactly as in the
source: the four half-step-padded strips plus the four outer corners.  scipy
returns the hull vertices and the source wraps them into a shapely polygon;
that polygon is modelled by the region it covers, namely Mathlib's
`convexHull ℚ` of the candidate set. -/

/-- `np.unique`: ascending sorted distinct values. -/
def uniqueSorted (l : List ℚ) : List ℚ :=
  List.insertionSort (· ≤ ·) l.dedup

/-- `unique[0] - 0.5*diff(unique)[0]`: the low padded edge of one axis. -/
def padLo (l : List ℚ) : ℚ :=
  (uniqueSorted l).getD 0 0
    - ((uniqueSorted l).getD 1 0 - (uniqueSorted l).getD 0 0) / 2

/-- `unique[-1] + 0.5*diff(unique)[-1]`: the high padded edge of one axis. -/
def padHi (l : List ℚ) : ℚ :=
  (uniqueSorted l).getD ((uniqueSorted l).length - 1) 0
    + ((uniqueSorted l).getD ((uniqueSorted l).length - 1) 0
        - (uniqueSorted l).getD ((uniqueSorted l).length - 2) 0) / 2

/-- The candidate boundary points `np.concatenate([addLeft, addRight,
addBottom, addTop, corners], axis=1)` handed to `ConvexHull`. -/
def hullCandidates (A3 A4 : List ℚ) : List (ℚ × ℚ) :=
  (uniqueSorted A4).map (fun a4 => (padLo A3, a4))
    ++ (uniqueSorted A4).map (fun a4 => (padHi A3, a4))
    ++ (uniqueSorted A3).map (fun a3 => (a3, padLo A4))
    ++ (uniqueSorted A3).map (fun a3 => (a3, padHi A4))
    ++ [(padLo A3, padLo A4), (padLo A3, padHi A4), (padHi A3, padLo A4), (padHi A3, padHi A4)]

/-- `convexHullPoints(A3, A4)`: the boundary polygon, modelled as the plane
region covered by the convex hull of the candidate points. -/
def convexHullPoints (A3 A4 : List ℚ) : Set (ℚ × ℚ) :=
  convexHull ℚ {p : ℚ × ℚ | p ∈ hullCandidates A3 A4}

theorem uniqueSorted_sorted (l : List ℚ) : List.Sorted (· ≤ ·) (uniqueSorted l) :=
  List.sorted_insertionSort (· ≤ ·) l.dedup

theorem uniqueSorted_nodup (l : List ℚ) : (uniqueSorted l).Nodup :=
  ((List.perm_insertionSort (· ≤ ·) l.dedup).nodup_iff).mpr l.nodup_dedup

theorem mem_uniqueSorted {l : List ℚ} {a : ℚ} (h : a ∈ l) : a ∈ uniqueSorted l :=
  (List.perm_insertionSort (· ≤ ·) l.dedup).mem_iff.mpr (List.mem_dedup.mpr h)

/-- In a `≤`-sorted list the entry at index 0 is a lower bound. -/
theorem sorted_getD_zero_le {l : List ℚ} (h : List.Sorted (· ≤ ·) l)
    {v : ℚ} (hv : v ∈ l) : l.getD 0 0 ≤ v := by
  cases l with
  | nil => simp at hv
  | cons x xs =>
    rcases List.mem_cons.mp hv with h1 | h2
    · simp [h1]
    · simpa using (List.sorted_cons.mp h).1 v h2

/-- In a `≤`-sorted list the entry at the last index is an upper bound. -/
theorem sorted_le_getD_last :
    ∀ (l : List ℚ), List.Sorted (· ≤ ·) l → ∀ v ∈ l, v ≤ l.getD (l.length - 1) 0 := by
  intro l
  induction l with
  | nil => intro _ v hv; simp at hv
  | cons x xs ih =>
    intro hsorted v hv
    cases hxs : xs with
    | nil =>
      subst hxs
      simp at hv
      simp [hv]
    | cons y tl =>
      subst hxs
      have hidx : (x :: y :: tl).length - 1 = ((y :: tl).length - 1) + 1 := by
        simp
      rw [hidx, List.getD_cons_succ]
      rcases List.mem_cons.mp hv with h1 | h2
      · subst h1
        have hxy : v ≤ y := (List.sorted_cons.mp hsorted).1 y (by simp)
        have := ih (List.sorted_cons.mp hsorted).2 y (by simp)
        exact le_trans hxy this
      · exact ih (List.sorted_cons.mp hsorted).2 v h2

/-- In a `≤`-sorted duplicate-free list of length at least 2, the first two
entries are strictly increasing. -/
theorem sorted_nodup_getD_zero_lt_one {l : List ℚ} (hs : List.Sorted (· ≤ ·) l)
    (hn : l.Nodup) (hl : 2 ≤ l.length) : l.getD 0 0 < l.getD 1 0 := by
  match l, hl with
  | a :: b :: tl, _ =>
    have hle : a ≤ b := (List.sorted_cons.mp hs).1 b (by simp)
    have hne : a ≠ b := by
      intro hab
      subst hab
      exact (List.nodup_cons.mp hn).1 (by simp)
    simpa using lt_of_le_of_ne hle hne

/-- In a `≤`-sorted duplicate-free list of length at least 2, the last two
entries are strictly increasing. -/
theorem sorted_nodup_getD_last_lt :
    ∀ (l : List ℚ), List.Sorted (· ≤ ·) l → l.Nodup → 2 ≤ l.length →
      l.getD (l.length - 2) 0 < l.getD (l.length - 1) 0 := by
  intro l
  induction l with
  | nil => intro _ _ h; simp at h
  | cons x xs ih =>
    intro hs hn hl
    cases hxs : xs with
    | nil => subst hxs; simp at hl
    | cons y tl =>
      subst hxs
      cases htl : tl with
      | nil =>
        subst htl
        exact sorted_nodup_getD_zero_lt_one hs hn (by simp)
      | cons z tl2 =>
        subst htl
        have h1 : (x :: y :: z :: tl2).length - 2 = ((y :: z :: tl2).length - 2) + 1 := by
          simp
        have h2 : (x :: y :: z :: tl2).length - 1 = ((y :: z :: tl2).length - 1) + 1 := by
          simp
        rw [h1, h2, List.getD_cons_succ, List.getD_cons_succ]
        exact ih (List.sorted_cons.mp hs).2 (List.nodup_cons.mp hn).2 (by simp)

theorem getD_mem_of_lt : ∀ (l : List ℚ) (n : ℕ), n < l.length → l.getD n 0 ∈ l := by
  intro l
  induction l with
  | nil => intro n h; simp at h
  | cons x xs ih =>
    intro n h
    cases n with
    | zero => simp
    | succ m =>
      rw [List.getD_cons_succ]
      exact List.mem_cons.mpr (Or.inr (ih m (by simpa using h)))

/-- Per-axis padding facts: every raw value lies strictly between the padded
edges, every unique value lies weakly between them, and the edges are
ordered. -/
theorem pad_axis (l : List ℚ) (hl : 2 ≤ (uniqueSorted l).length) :
    (∀ a ∈ l, padLo l < a ∧ a < padHi l) ∧
    (∀ a ∈ uniqueSorted l, padLo l ≤ a ∧ a ≤ padHi l) ∧
    padLo l ≤ padHi l := by
  have hs := uniqueSorted_sorted l
  have hn := uniqueSorted_nodup l
  have h01 := sorted_nodup_getD_zero_lt_one hs hn hl
  have hlast := sorted_nodup_getD_last_lt (uniqueSorted l) hs hn hl
  have hlo : padLo l < (uniqueSorted l).getD 0 0 := by
    unfold padLo
    linarith
  have hhi : (uniqueSorted l).getD ((uniqueSorted l).length - 1) 0 < padHi l := by
    unfold padHi
    linarith
  have hmemlo : ∀ a ∈ uniqueSorted l, (uniqueSorted l).getD 0 0 ≤ a :=
    fun a ha => sorted_getD_zero_le hs ha
  have hmemhi : ∀ a ∈ uniqueSorted l,
      a ≤ (uniqueSorted l).getD ((uniqueSorted l).length - 1) 0 :=
    fun a ha => sorted_le_getD_last (uniqueSorted l) hs a ha
  refine ⟨?_, ?_, ?_⟩
  · intro a ha
    have hm := mem_uniqueSorted ha
    exact ⟨lt_of_lt_of_le hlo (hmemlo a hm), lt_of_le_of_lt (hmemhi a hm) hhi⟩
  · intro a ha
    exact ⟨le_of_lt (lt_of_lt_of_le hlo (hmemlo a ha)),
      le_of_lt (lt_of_le_of_lt (hmemhi a ha) hhi)⟩
  · have hz : (uniqueSorted l).getD 0 0 ∈ uniqueSorted l :=
      getD_mem_of_lt (uniqueSorted l) 0 (by omega)
    have := hmemhi _ hz
    linarith

/-- C5: for a rectangular grid of A3/A4 values with at least two distinct
values per axis, the boundary polygon returned by `convexHullPoints` is
exactly the padded rectangle, and every measurement point lies strictly
inside it (never on its boundary). -/
theorem claim_C5 (A3 A4 : List ℚ)
    (h3 : 2 ≤ (uniqueSorted A3).length) (h4 : 2 ≤ (uniqueSorted A4).length) :
    convexHullPoints A3 A4
        = Set.Icc (padLo A3) (padHi A3) ×ˢ Set.Icc (padLo A4) (padHi A4) ∧
    ∀ a3 ∈ A3, ∀ a4 ∈ A4,
      padLo A3 < a3 ∧ a3 < padHi A3 ∧ padLo A4 < a4 ∧ a4 < padHi A4 ∧
      (a3, a4) ∈ convexHullPoints A3 A4 := by
  obtain ⟨hstrict3, hweak3, hord3⟩ := pad_axis A3 h3
  obtain ⟨hstrict4, hweak4, hord4⟩ := pad_axis A4 h4
  have hmain : convexHullPoints A3 A4
      = Set.Icc (padLo A3) (padHi A3) ×ˢ Set.Icc (padLo A4) (padHi A4) := by
    apply Set.Subset.antisymm
    · apply convexHull_min
      · intro p hp
        simp only [Set.mem_setOf_eq, hullCandidates, List.mem_append, List.mem_map,
          List.mem_cons, List.not_mem_nil] at hp
        rcases hp with ((((⟨a4, ha4, rfl⟩ | ⟨a4, ha4, rfl⟩) | ⟨a3, ha3, rfl⟩) |
            ⟨a3, ha3, rfl⟩) | hp)
        · exact Set.mem_prod.mpr ⟨⟨le_refl _, hord3⟩, hweak4 a4 ha4⟩
        · exact Set.mem_prod.mpr ⟨⟨hord3, le_refl _⟩, hweak4 a4 ha4⟩
        · exact Set.mem_prod.mpr ⟨hweak3 a3 ha3, ⟨le_refl _, hord4⟩⟩
        · exact Set.mem_prod.mpr ⟨hweak3 a3 ha3, ⟨hord4, le_refl _⟩⟩
        · rcases hp with rfl | rfl | rfl | rfl | h
          · exact Set.mem_prod.mpr ⟨⟨le_refl _, hord3⟩, ⟨le_refl _, hord4⟩⟩
          · exact Set.mem_prod.mpr ⟨⟨le_refl _, hord3⟩, ⟨hord4, le_refl _⟩⟩
          · exact Set.mem_prod.mpr ⟨⟨hord3, le_refl _⟩, ⟨le_refl _, hord4⟩⟩
          · exact Set.mem_prod.mpr ⟨⟨hord3, le_refl _⟩, ⟨hord4, le_refl _⟩⟩
          · exact absurd h (by simp)
      · exact (convex_Icc _ _).prod (convex_Icc _ _)
    · have hrect : Set.Icc (padLo A3) (padHi A3) ×ˢ Set.Icc (padLo A4) (padHi A4)
          = convexHull ℚ (({padLo A3, padHi A3} : Set ℚ) ×ˢ
              ({padLo A4, padHi A4} : Set ℚ)) := by
        rw [convexHull_prod, convexHull_pair, convexHull_pair,
          segment_eq_Icc hord3, segment_eq_Icc hord4]
      rw [hrect]
      apply convexHull_mono
      intro p hp
      obtain ⟨hp1, hp2⟩ := Set.mem_prod.mp hp
      have h1 : p.1 = padLo A3 ∨ p.1 = padHi A3 := by simpa using hp1
      have h2 : p.2 = padLo A4 ∨ p.2 = padHi A4 := by simpa using hp2
      have hp' : p = (p.1, p.2) := rfl
      rw [Set.mem_setOf_eq, hp']
      rcases h1 with h1 | h1 <;> rcases h2 with h2 | h2 <;> rw [h1, h2] <;>
        simp [hullCandidates]
  refine ⟨hmain, ?_⟩
  intro a3 ha3 a4 ha4
  obtain ⟨hl3, hh3⟩ := hstrict3 a3 ha3
  obtain ⟨hl4, hh4⟩ := hstrict4 a4 ha4
  refine ⟨hl3, hh3, hl4, hh4, ?_⟩
  rw [hmain]
  exact Set.mem_prod.mpr ⟨⟨le_of_lt hl3, le_of_lt hh3⟩, ⟨le_of_lt hl4, le_of_lt hh4⟩⟩

/-- Witness for C5 on the 2×2 grid with A3 in {0,1} and A4 in {0,2}. -/
theorem claim_C5_witness :
    (2 ≤ (uniqueSorted [0, 1]).length ∧ 2 ≤ (uniqueSorted [0, 2]).length) ∧
    (convexHullPoints [0, 1] [0, 2]
        = Set.Icc (padLo [0, 1]) (padHi [0, 1]) ×ˢ Set.Icc (padLo [0, 2]) (padHi [0, 2]) ∧
      ∀ a3 ∈ ([0, 1] : List ℚ), ∀ a4 ∈ ([0, 2] : List ℚ),
        padLo [0, 1] < a3 ∧ a3 < padHi [0, 1] ∧ padLo [0, 2] < a4 ∧ a4 < padHi [0, 2] ∧
        (a3, a4) ∈ convexHullPoints [0, 1] [0, 2]) :=
  ⟨⟨by with_unfolding_all decide, by with_unfolding_all decide⟩,
    claim_C5 [0, 1] [0, 2] (by with_unfolding_all decide) (by with_unfolding_all decide)⟩

/-! ## Rectangular grid voxelizer (`calculateGrid3D` DataSet.py 3142-3236,
`calculateBins` 3298-3316, `binData3D` 3240-3296)

3D arrays are modelled as a shape triple plus a total indexing function (the
values outside the shape are never read).  `calculateGrid3D` performs, for
each of X/Y/Z independently, the in-place NumPy update sequence that first
shifts every centre by half the neighbouring spacings (`XX`) and then extends
the array by one further edge per axis (`XT`); the sequence is expressed
below as closed per-index formulas obtained by unrolling the source's
assignments in order.  When an axis of the input grids has a single entry
(`xshape[i] == 1`), `np.diff` along that axis is empty and the source's
`XX[-1] -= 0.5*dx0[-1]` raises `IndexError: index -1 is out of bounds`; this
is the error case. -/

/-- A NumPy 3D array: shape and total indexing function. -/
structure Arr3 where
  n1 : ℕ
  n2 : ℕ
  n3 : ℕ
  v : ℕ → ℕ → ℕ → ℚ

/-- `np.round`: round half to even. -/
def npRound (q : ℚ) : ℤ :=
  let f := ⌊q⌋
  let r := q - f
  if r < 1 / 2 then f
  else if 1 / 2 < r then f + 1
  else if f % 2 = 0 then f else f + 1

/-- `np.min` of a flat array (callers guarantee nonempty input, as NumPy
raises on an empty array). -/
def npMin (l : List ℚ) : ℚ := l.foldl min (l.headD 0)

/-- `np.max` of a flat array. -/
def npMax (l : List ℚ) : ℚ := l.foldl max (l.headD 0)

/-- `np.linspace(lo, hi, n)` (endpoint included). -/
def linspace (lo hi : ℚ) (n : ℕ) : List ℚ :=
  if n = 1 then [lo]
  else (List.range n).map (fun i => lo + i * (hi - lo) / ((n : ℚ) - 1))

/-- Per-axis bin count of `calculateBins`:
`np.round(diff/step).astype(int) + 1`. -/
def nbinsOf (step : ℚ) (l : List ℚ) : ℕ :=
  (npRound (|npMax l - npMin l| / step) + 1).toNat

/-- The centre-to-corner extension of one coordinate grid performed by
`calculateGrid3D` (the `XX`/`XT` update sequence for one of X, Y, Z, which
only reads that one array).  Defined for shapes with at least 2 entries per
axis; `calculateGrid3D` raises before calling this otherwise. -/
def extendGrid (X : Arr3) : Arr3 :=
  let n1 := X.n1
  let n2 := X.n2
  let n3 := X.n3
  let d0 : ℕ → ℕ → ℕ → ℚ := fun i j k => X.v (i + 1) j k - X.v i j k
  let d1 : ℕ → ℕ → ℕ → ℚ := fun i j k => X.v i (j + 1) k - X.v i j k
  let d2 : ℕ → ℕ → ℕ → ℚ := fun i j k => X.v i j (k + 1) - X.v i j k
  let base : ℕ → ℕ → ℕ → ℚ := fun i j k =>
    X.v i j k - d0 (min i (n1 - 2)) j k / 2 - d1 i (min j (n2 - 2)) k / 2
      - d2 i j (min k (n3 - 2)) / 2
  let faceI : ℕ → ℕ → ℚ := fun j k => base (n1 - 1) j k + d0 (n1 - 2) j k
  let faceJ : ℕ → ℕ → ℚ := fun i k => base i (n2 - 1) k + d1 i (n2 - 2) k
  let faceK : ℕ → ℕ → ℚ := fun i j => base i j (n3 - 1) + d2 i j (n3 - 2)
  let edgeJK : ℕ → ℚ := fun i =>
    (faceJ i (n3 - 1) + d2 i (n2 - 1) (n3 - 2) + faceK i (n2 - 1) + d1 i (n2 - 2) (n3 - 1)) / 2
  let edgeIK : ℕ → ℚ := fun j =>
    (faceI j (n3 - 1) + d2 (n1 - 1) j (n3 - 2) + faceK (n1 - 1) j + d0 (n1 - 2) j (n3 - 1)) / 2
  let edgeIJ : ℕ → ℚ := fun k =>
    (faceI (n2 - 1) k + d1 (n1 - 1) (n2 - 2) k + faceJ (n1 - 1) k + d0 (n1 - 2) (n2 - 1) k) / 2
  let corner : ℚ :=
    (edgeIK (n2 - 1) + d1 (n1 - 1) (n2 - 2) (n3 - 1) + edgeJK (n1 - 1)
      + d0 (n1 - 2) (n2 - 1) (n3 - 1) + edgeIJ (n3 - 1) + d2 (n1 - 1) (n2 - 1) (n3 - 2)) / 3
  ⟨n1 + 1, n2 + 1, n3 + 1, fun i j k =>
    if i < n1 then
      if j < n2 then (if k < n3 then base i j k else faceK i j)
      else (if k < n3 then faceJ i k else edgeJK i)
    else
      if j < n2 then (if k < n3 then faceI j k else edgeIK j)
      else (if k < n3 then edgeIJ k else corner)⟩

/-- `calculateGrid3D(X, Y, Z)`: corner grids of the three centre grids.  A
single-entry axis makes `np.diff` empty along it and the in-place update
raises an `IndexError`. -/
def calculateGrid3D (X Y Z : Arr3) : Except String (Arr3 × Arr3 × Arr3) :=
  if X.n1 ≤ 1 ∨ X.n2 ≤ 1 ∨ X.n3 ≤ 1 then
    Except.error "index -1 is out of bounds for axis with size 0"
  else
    Except.ok (extendGrid X, extendGrid Y, extendGrid Z)

/-- `calculateBins(dx, dy, dz, pos)`: bin counts from the data extents, then
inclusive linspace centres meshgridded with `indexing='ij'` and extended to
corner grids. -/
def calculateBins (dx dy dz : ℚ) (pos : Pos3) : Except String (Arr3 × Arr3 × Arr3) :=
  let xbins := nbinsOf dx pos.1
  let ybins := nbinsOf dy pos.2.1
  let zbins := nbinsOf dz pos.2.2
  let xs := linspace (npMin pos.1) (npMax pos.1) xbins
  let ys := linspace (npMin pos.2.1) (npMax pos.2.1) ybins
  let zs := linspace (npMin pos.2.2) (npMax pos.2.2) zbins
  calculateGrid3D
    ⟨xbins, ybins, zbins, fun i _ _ => xs.getD i 0⟩
    ⟨xbins, ybins, zbins, fun _ j _ => ys.getD j 0⟩
    ⟨xbins, ybins, zbins, fun _ _ k => zs.getD k 0⟩

/-- NumPy dtypes, as far as the claims need them. -/
inductive DType
  | float64
  | int64
  deriving Repr, DecidableEq

def DType.isInteger : DType → Bool
  | DType.int64 => true
  | DType.float64 => false

/-- A flat NumPy array with its dtype. -/
structure TypedList where
  dtype : DType
  vals : List ℚ

/-- A 3D NumPy array with its dtype. -/
structure TypedGrid where
  dtype : DType
  vals : List (List (List ℚ))

/-- Membership of `v` in bin `i` of `edges` (`np.histogramdd` semantics:
half-open bins, last bin closed). -/
def inBinIdx (edges : List ℚ) (i : ℕ) (v : ℚ) : Bool :=
  decide (edges.getD i 0 ≤ v) &&
    (if i + 2 = edges.length then decide (v ≤ edges.getD (i + 1) 0)
      else decide (v < edges.getD (i + 1) 0))

/-- `np.histogramdd(samples, bins=[ex, ey, ez], weights=w)[0]`. -/
def hist3 (ex ey ez : List ℚ) (samples : List (ℚ × ℚ × ℚ)) (w : List ℚ) :
    List (List (List ℚ)) :=
  (List.range (ex.length - 1)).map (fun a =>
    (List.range (ey.length - 1)).map (fun b =>
      (List.range (ez.length - 1)).map (fun c =>
        (((samples.zip w).filter (fun p =>
          inBinIdx ex a p.1.1 && inBinIdx ey b p.1.2.1 && inBinIdx ez c p.1.2.2)).map
            (fun p => p.2)).sum)))

/-- `HistBins = [bins[0][:,0,0], bins[1][0,:,0], bins[2][0,0,:]]`. -/
def histBinsOf (b : Arr3 × Arr3 × Arr3) : List ℚ × List ℚ × List ℚ :=
  ((List.range b.1.n1).map (fun i => b.1.v i 0 0),
   (List.range b.2.1.n2).map (fun j => b.2.1.v 0 j 0),
   (List.range b.2.2.n3).map (fun k => b.2.2.v 0 0 k))

/-- `binData3D(dx, dy, dz, pos, data, norm, mon, bins)`: the returned list is
`[intensity]`, plus `MonitorCount` when `mon` is given, plus `Normalization`
and the integer `NormCount` when `norm` is given; each histogram is cast back
to its weight array's dtype (`intensity` to `data.dtype`, `NormCount` to
`int`). -/
def binData3D (dx dy dz : ℚ) (pos : Pos3) (data : TypedList)
    (norm mon : Option TypedList) (bins : Option (Arr3 × Arr3 × Arr3)) :
    Except String (List TypedGrid × (Arr3 × Arr3 × Arr3)) :=
  match (match bins with
         | some b => Except.ok b
         | none => calculateBins dx dy dz pos) with
  | Except.error e => Except.error e
  | Except.ok b =>
    let hb := histBinsOf b
    let n := pos.1.length
    let samples := (List.range n).map (fun i =>
      (pos.1.getD i 0, pos.2.1.getD i 0, pos.2.2.getD i 0))
    let intensity : TypedGrid := ⟨data.dtype, hist3 hb.1 hb.2.1 hb.2.2 samples data.vals⟩
    let monPart : List TypedGrid :=
      match mon with
      | some m => [⟨m.dtype, hist3 hb.1 hb.2.1 hb.2.2 samples m.vals⟩]
      | none => []
    let normPart : List TypedGrid :=
      match norm with
      | some nr =>
        [⟨nr.dtype, hist3 hb.1 hb.2.1 hb.2.2 samples nr.vals⟩,
         ⟨DType.int64, hist3 hb.1 hb.2.1 hb.2.2 samples (data.vals.map (fun _ => (1 : ℚ)))⟩]
      | none => []
    Except.ok ([intensity] ++ monPart ++ normPart, b)

theorem extendGrid_n1 (X : Arr3) : (extendGrid X).n1 = X.n1 + 1 := rfl

theorem extendGrid_n2 (X : Arr3) : (extendGrid X).n2 = X.n2 + 1 := rfl

theorem extendGrid_n3 (X : Arr3) : (extendGrid X).n3 = X.n3 + 1 := rfl

theorem nbins_half (l : List ℚ) (hx : npMax l - npMin l = 1) : nbinsOf (1/2) l = 3 := by
  unfold nbinsOf
  rw [hx]
  norm_num [npRound]
  rfl

theorem nbins_quarter (l : List ℚ) (hx : npMax l - npMin l = 1) : nbinsOf (1/4) l = 5 := by
  unfold nbinsOf
  rw [hx]
  norm_num [npRound]
  rfl

/-- On a point cloud with extent exactly 1 on each axis, the
`(0.5, 0.25, 0.25)` rebinning derives `(3, 5, 5)` grid centres. -/
theorem calculateBins_unit (pos : Pos3)
    (hx : npMax pos.1 - npMin pos.1 = 1)
    (hy : npMax pos.2.1 - npMin pos.2.1 = 1)
    (hz : npMax pos.2.2 - npMin pos.2.2 = 1) :
    calculateBins (1/2) (1/4) (1/4) pos = Except.ok
      (extendGrid ⟨3, 5, 5, fun i _ _ => (linspace (npMin pos.1) (npMax pos.1) 3).getD i 0⟩,
       extendGrid ⟨3, 5, 5, fun _ j _ => (linspace (npMin pos.2.1) (npMax pos.2.1) 5).getD j 0⟩,
       extendGrid ⟨3, 5, 5, fun _ _ k =>
         (linspace (npMin pos.2.2) (npMax pos.2.2) 5).getD k 0⟩) := by
  unfold calculateBins
  rw [nbins_half pos.1 hx, nbins_quarter pos.2.1 hy, nbins_quarter pos.2.2 hz]
  unfold calculateGrid3D
  norm_num

/-- The along-x histogram edges of the unit-extent grid are strictly
increasing. -/
theorem histBinsX_chain (m hi : ℚ) (hhi : hi = m + 1) :
    List.Chain' (· < ·) ((List.range 4).map (fun i =>
      (extendGrid ⟨3, 5, 5, fun a _ _ => (linspace m hi 3).getD a 0⟩).v i 0 0)) := by
  subst hhi
  simp only [extendGrid, linspace, List.range_succ, List.range_zero]
  norm_num [List.chain'_cons]

/-- The along-y histogram edges of the unit-extent grid are strictly
increasing. -/
theorem histBinsY_chain (m hi : ℚ) (hhi : hi = m + 1) :
    List.Chain' (· < ·) ((List.range 6).map (fun j =>
      (extendGrid ⟨3, 5, 5, fun _ b _ => (linspace m hi 5).getD b 0⟩).v 0 j 0)) := by
  subst hhi
  simp only [extendGrid, linspace, List.range_succ, List.range_zero]
  norm_num [List.chain'_cons]

/-- The along-z histogram edges of the unit-extent grid are strictly
increasing. -/
theorem histBinsZ_chain (m hi : ℚ) (hhi : hi = m + 1) :
    List.Chain' (· < ·) ((List.range 6).map (fun k =>
      (extendGrid ⟨3, 5, 5, fun _ _ c => (linspace m hi 5).getD c 0⟩).v 0 0 k)) := by
  subst hhi
  simp only [extendGrid, linspace, List.range_succ, List.range_zero]
  norm_num [List.chain'_cons]

theorem hist3_shape (ex ey ez : List ℚ) (samples : List (ℚ × ℚ × ℚ)) (w : List ℚ) :
    (hist3 ex ey ez samples w).length = ex.length - 1 ∧
    ∀ r ∈ hist3 ex ey ez samples w, r.length = ey.length - 1 ∧
      ∀ c ∈ r, c.length = ez.length - 1 := by
  constructor
  · simp [hist3]
  · intro r hr
    simp only [hist3, List.mem_map] at hr
    obtain ⟨a, _, rfl⟩ := hr
    constructor
    · simp
    · intro c hc
      simp only [List.mem_map] at hc
      obtain ⟨b, _, rfl⟩ := hc
      simp

/-- `binData3D` with both `norm` and `mon` supplied and bins derived from the
data returns the four aggregates in source order, each histogram cast back to
its weight array's dtype. -/
theorem binData3D_somesome (dx dy dz : ℚ) (pos : Pos3) (data nr mo : TypedList)
    (b : Arr3 × Arr3 × Arr3) (hcb : calculateBins dx dy dz pos = Except.ok b) :
    binData3D dx dy dz pos data (some nr) (some mo) none = Except.ok
      ([⟨data.dtype, hist3 (histBinsOf b).1 (histBinsOf b).2.1 (histBinsOf b).2.2
          ((List.range pos.1.length).map (fun i =>
            (pos.1.getD i 0, pos.2.1.getD i 0, pos.2.2.getD i 0))) data.vals⟩,
        ⟨mo.dtype, hist3 (histBinsOf b).1 (histBinsOf b).2.1 (histBinsOf b).2.2
          ((List.range pos.1.length).map (fun i =>
            (pos.1.getD i 0, pos.2.1.getD i 0, pos.2.2.getD i 0))) mo.vals⟩,
        ⟨nr.dtype, hist3 (histBinsOf b).1 (histBinsOf b).2.1 (histBinsOf b).2.2
          ((List.range pos.1.length).map (fun i =>
            (pos.1.getD i 0, pos.2.1.getD i 0, pos.2.2.getD i 0))) nr.vals⟩,
        ⟨DType.int64, hist3 (histBinsOf b).1 (histBinsOf b).2.1 (histBinsOf b).2.2
          ((List.range pos.1.length).map (fun i =>
            (pos.1.getD i 0, pos.2.1.getD i 0, pos.2.2.getD i 0)))
          (data.vals.map (fun _ => (1 : ℚ)))⟩], b) := by
  unfold binData3D
  rw [hcb]
  rfl

/-- C6: rebinning a point cloud of extents `(1,1,1)` with steps
`(0.5, 0.25, 0.25)` and no precomputed bins yields aggregate arrays
(intensity, monitor, normalization, normalization-count) of shape exactly
`(3,5,5)`; the normalization-count array has integer dtype and the intensity
array keeps the input data dtype.  (The strictly increasing edge conjuncts
record that NumPy's monotonic-bins precondition holds.) -/
theorem claim_C6 (pos : Pos3) (data nr mo : TypedList)
    (hx : npMax pos.1 - npMin pos.1 = 1)
    (hy : npMax pos.2.1 - npMin pos.2.1 = 1)
    (hz : npMax pos.2.2 - npMin pos.2.2 = 1) :
    ∃ grids b,
      binData3D (1/2) (1/4) (1/4) pos data (some nr) (some mo) none
        = Except.ok (grids, b) ∧
      grids.length = 4 ∧
      (∀ g ∈ grids, g.vals.length = 3 ∧
        ∀ r ∈ g.vals, r.length = 5 ∧ ∀ c ∈ r, c.length = 5) ∧
      (grids.getD 0 ⟨DType.int64, []⟩).dtype = data.dtype ∧
      (grids.getD 1 ⟨DType.int64, []⟩).dtype = mo.dtype ∧
      (grids.getD 2 ⟨DType.int64, []⟩).dtype = nr.dtype ∧
      (grids.getD 3 ⟨DType.float64, []⟩).dtype.isInteger = true ∧
      List.Chain' (· < ·) (histBinsOf b).1 ∧
      List.Chain' (· < ·) (histBinsOf b).2.1 ∧
      List.Chain' (· < ·) (histBinsOf b).2.2 := by
  have hcb := calculateBins_unit pos hx hy hz
  have hres := binData3D_somesome (1/2) (1/4) (1/4) pos data nr mo _ hcb
  refine ⟨_, _, hres, rfl, ?_, rfl, rfl, rfl, rfl, ?_, ?_, ?_⟩
  · intro g hg
    have hb1 : (histBinsOf
        (extendGrid ⟨3, 5, 5, fun i _ _ => (linspace (npMin pos.1) (npMax pos.1) 3).getD i 0⟩,
         extendGrid ⟨3, 5, 5, fun _ j _ => (linspace (npMin pos.2.1) (npMax pos.2.1) 5).getD j 0⟩,
         extendGrid ⟨3, 5, 5, fun _ _ k =>
           (linspace (npMin pos.2.2) (npMax pos.2.2) 5).getD k 0⟩)).1.length = 4 := by
      simp [histBinsOf, extendGrid_n1]
    have hb2 : (histBinsOf
        (extendGrid ⟨3, 5, 5, fun i _ _ => (linspace (npMin pos.1) (npMax pos.1) 3).getD i 0⟩,
         extendGrid ⟨3, 5, 5, fun _ j _ => (linspace (npMin pos.2.1) (npMax pos.2.1) 5).getD j 0⟩,
         extendGrid ⟨3, 5, 5, fun _ _ k =>
           (linspace (npMin pos.2.2) (npMax pos.2.2) 5).getD k 0⟩)).2.1.length = 6 := by
      simp [histBinsOf, extendGrid_n2]
    have hb3 : (histBinsOf
        (extendGrid ⟨3, 5, 5, fun i _ _ => (linspace (npMin pos.1) (npMax pos.1) 3).getD i 0⟩,
         extendGrid ⟨3, 5, 5, fun _ j _ => (linspace (npMin pos.2.1) (npMax pos.2.1) 5).getD j 0⟩,
         extendGrid ⟨3, 5, 5, fun _ _ k =>
           (linspace (npMin pos.2.2) (npMax pos.2.2) 5).getD k 0⟩)).2.2.length = 6 := by
      simp [histBinsOf, extendGrid_n3]
    simp only [List.mem_cons, List.not_mem_nil, or_false] at hg
    rcases hg with rfl | rfl | rfl | rfl
    all_goals
      obtain ⟨hs1, hs2⟩ := hist3_shape _ _ _ _ _
      constructor
      · rw [hs1, hb1]
      · intro r hr
        obtain ⟨hr1, hr2⟩ := hs2 r hr
        constructor
        · rw [hr1, hb2]
        · intro c hc
          rw [hr2 c hc, hb3]
  · have := histBinsX_chain (npMin pos.1) (npMax pos.1) (by linarith)
    simpa [histBinsOf, extendGrid_n1] using this
  · have := histBinsY_chain (npMin pos.2.1) (npMax pos.2.1) (by linarith)
    simpa [histBinsOf, extendGrid_n2] using this
  · have := histBinsZ_chain (npMin pos.2.2) (npMax pos.2.2) (by linarith)
    simpa [histBinsOf, extendGrid_n3] using this

/-- Witness for C6 on a concrete two-point cloud with extents `(1,1,1)`. -/
theorem claim_C6_witness :
    (npMax [(0 : ℚ), 1] - npMin [(0 : ℚ), 1] = 1) ∧
    ∃ grids b,
      binData3D (1/2) (1/4) (1/4) ([0, 1], [0, 1], [0, 1])
          ⟨DType.float64, [3, 5]⟩ (some ⟨DType.float64, [1, 1]⟩)
          (some ⟨DType.int64, [1, 1]⟩) none
        = Except.ok (grids, b) ∧
      grids.length = 4 ∧
      (∀ g ∈ grids, g.vals.length = 3 ∧
        ∀ r ∈ g.vals, r.length = 5 ∧ ∀ c ∈ r, c.length = 5) ∧
      (grids.getD 0 ⟨DType.int64, []⟩).dtype = (⟨DType.float64, [(3 : ℚ), 5]⟩ : TypedList).dtype ∧
      (grids.getD 1 ⟨DType.int64, []⟩).dtype = (⟨DType.int64, [(1 : ℚ), 1]⟩ : TypedList).dtype ∧
      (grids.getD 2 ⟨DType.int64, []⟩).dtype = (⟨DType.float64, [(1 : ℚ), 1]⟩ : TypedList).dtype ∧
      (grids.getD 3 ⟨DType.float64, []⟩).dtype.isInteger = true ∧
      List.Chain' (· < ·) (histBinsOf b).1 ∧
      List.Chain' (· < ·) (histBinsOf b).2.1 ∧
      List.Chain' (· < ·) (histBinsOf b).2.2 :=
  ⟨by with_unfolding_all decide,
    claim_C6 ([0, 1], [0, 1], [0, 1]) ⟨DType.float64, [3, 5]⟩ ⟨DType.float64, [1, 1]⟩
      ⟨DType.int64, [1, 1]⟩ (by with_unfolding_all decide) (by with_unfolding_all decide)
      (by with_unfolding_all decide)⟩

/-- C7 counterexample: when all three axes collapse to a single point the
call does not complete: `calculateBins` propagates the `IndexError` from
`calculateGrid3D` instead of returning single-voxel edges. -/
theorem claim_C7_counterexample :
    calculateBins (1/2) (1/4) (1/4) ([0], [0], [0])
      = Except.error "index -1 is out of bounds for axis with size 0" := by
  with_unfolding_all rfl

/-- C7 (amended): when all three data axes collapse to a single point the
derived bin count on each axis is 1, but the call raises an `IndexError`
inside `calculateGrid3D` (the empty `np.diff` array is indexed with `-1`)
instead of completing with `point ± half a nominal step` edges. -/
theorem claim_C7 (dx dy dz : ℚ) (pos : Pos3)
    (hx : npMax pos.1 = npMin pos.1)
    (hy : npMax pos.2.1 = npMin pos.2.1)
    (hz : npMax pos.2.2 = npMin pos.2.2) :
    nbinsOf dx pos.1 = 1 ∧ nbinsOf dy pos.2.1 = 1 ∧ nbinsOf dz pos.2.2 = 1 ∧
    calculateBins dx dy dz pos
      = Except.error "index -1 is out of bounds for axis with size 0" := by
  have h1 : nbinsOf dx pos.1 = 1 := by
    unfold nbinsOf
    rw [hx]
    norm_num [npRound]
  have h2 : nbinsOf dy pos.2.1 = 1 := by
    unfold nbinsOf
    rw [hy]
    norm_num [npRound]
  have h3 : nbinsOf dz pos.2.2 = 1 := by
    unfold nbinsOf
    rw [hz]
    norm_num [npRound]
  refine ⟨h1, h2, h3, ?_⟩
  unfold calculateBins
  rw [h1, h2, h3]
  unfold calculateGrid3D
  norm_num

/-- Witness for C7 on the single-point cloud. -/
theorem claim_C7_witness :
    (npMax [(0 : ℚ)] = npMin [(0 : ℚ)]) ∧
    (nbinsOf (1/2) [(0 : ℚ)] = 1 ∧ nbinsOf (1/4) [(0 : ℚ)] = 1 ∧
      nbinsOf (1/4) [(0 : ℚ)] = 1 ∧
      calculateBins (1/2) (1/4) (1/4) ([0], [0], [0])
        = Except.error "index -1 is out of bounds for axis with size 0") :=
  ⟨by with_unfolding_all rfl,
    claim_C7 (1/2) (1/4) (1/4) ([0], [0], [0]) (by with_unfolding_all rfl)
      (by with_unfolding_all rfl) (by with_unfolding_all rfl)⟩

/-! ## Duplicate-point merge of the A3-A4 tessellation path (`plotA3A4`,
DataSet.py 2282-2313)

When the flattened A3-A4 position array `PosAll` contains duplicate columns,
the source keeps the first occurrence of each unique column
(`np.unique(..., return_index=True)`), collects the remaining rows
(`mask`/`doublePoints`), finds for each such row the index of its unique
column (a KDTree nearest-neighbour query on the rounded coordinates with a
small `distance_upper_bound`), and then merges with NumPy fancy indexing:
`Isorted[doubleIndex,:] += doubleI`,
`Normsorted[doubleIndex,:] = np.nanmean([Normsorted[doubleIndex,:], doubleNorm], axis=0)`,
`Monsorted[doubleIndex,:] += doubleMon`.
Fancy-index assignment is buffered: all reads happen against the original
array and repeated indices are scattered in order, so only the last write per
index survives.  `fancyUpdate` models exactly that gather-then-scatter.
Normalization rows may contain NaN; they are modelled as `Option ℚ` with the
two-argument `np.nanmean` semantics. -/

/-- Lexicographic column order used by `np.unique(..., axis=1)`. -/
def lexLe (a b : ℚ × ℚ) : Prop := a.1 < b.1 ∨ (a.1 = b.1 ∧ a.2 ≤ b.2)

instance : DecidableRel lexLe := fun a b => by
  unfold lexLe
  infer_instance

/-- The sorted distinct columns of `np.unique(PosAll, axis=1)`. -/
def uniqueCols (l : List (ℚ × ℚ)) : List (ℚ × ℚ) :=
  List.insertionSort lexLe l.dedup

/-- Index of the first occurrence of a column (`return_index` of
`np.unique`). -/
def firstOcc (l : List (ℚ × ℚ)) (v : ℚ × ℚ) : ℕ :=
  l.findIdx (fun p => decide (p = v))

/-- Indices of the non-first-occurrence columns (the `mask` array). -/
def doubleIdxsOf (PosAll : List (ℚ × ℚ)) : List ℕ :=
  (List.range PosAll.length).filter (fun i =>
    decide (¬ firstOcc PosAll (PosAll.getD i (0, 0)) = i))

/-- `np.round(x, d)`. -/
def npRoundTo (d : ℕ) (x : ℚ) : ℚ := (npRound (x * 10 ^ d) : ℚ) / 10 ^ d

/-- Index of the first minimal entry of a list (scipy's KDTree returns one
nearest neighbour; ties are broken deterministically here). -/
def argminIdx (l : List ℚ) : ℕ :=
  (l.enum.foldl (fun best cur => if cur.2 < best.2 then cur else best) (0, l.headD 0)).1

/-- `KDTree(pts).query(p, distance_upper_bound=ub)[1]`: the index of the
nearest point, or `len(pts)` when it is farther than `ub` (compared through
squared distances to stay in ℚ). -/
def kdNearestUB (pts : List (ℚ × ℚ)) (ub2 : ℚ) (p : ℚ × ℚ) : ℕ :=
  let d2 := pts.map (fun q => (q.1 - p.1) ^ 2 + (q.2 - p.2) ^ 2)
  let m := argminIdx d2
  if d2.getD m 0 ≤ ub2 then m else pts.length

/-- The per-duplicate target indices
`kdtree.query(np.round(doublePoints, binningDecimals).T, ...)` of the merge
step. -/
def doubleIndexOf (PosAll : List (ℚ × ℚ)) (binningDecimals : ℕ) : List ℕ :=
  (doubleIdxsOf PosAll).map (fun i =>
    kdNearestUB (uniqueCols PosAll)
      (((1 : ℚ) / 10 ^ binningDecimals * (11 / 10)) ^ 2)
      (npRoundTo binningDecimals (PosAll.getD i (0, 0)).1,
       npRoundTo binningDecimals (PosAll.getD i (0, 0)).2))

/-- Rows of the kept first occurrences, `IReshape[uindex,:]`. -/
def sortedRows {α : Type} (dflt : α) (PosAll : List (ℚ × ℚ)) (rows : List α) : List α :=
  (uniqueCols PosAll).map (fun u => rows.getD (firstOcc PosAll u) dflt)

/-- Rows of the duplicates, `IReshape[mask,:]`. -/
def doubleRows {α : Type} (dflt : α) (PosAll : List (ℚ × ℚ)) (rows : List α) : List α :=
  (doubleIdxsOf PosAll).map (fun i => rows.getD i dflt)

/-- NumPy fancy-index assignment `base[idxs] = op(base[idxs], vals)` (as
produced by `base[idxs] += vals` etc.): all gathers read the ORIGINAL array,
then the updates are scattered in order, so for a repeated index only the
last value survives. -/
def fancyUpdate {α : Type} (dflt : α) (base : List α) (idxs : List ℕ) (vals : List α)
    (op : α → α → α) : List α :=
  (idxs.zip vals).foldl (fun acc p => acc.set p.1 (op (base.getD p.1 dflt) p.2)) base

/-- `np.nanmean` over a stack of two values. -/
def nanmean2 (a b : Option ℚ) : Option ℚ :=
  match a, b with
  | some x, some y => some ((x + y) / 2)
  | some x, none => some x
  | none, some y => some y
  | none, none => none

/-- The merged data bundle of the duplicate branch of `plotA3A4`. -/
structure MergeResult where
  unique : List (ℚ × ℚ)
  Isorted : List (List ℚ)
  Normsorted : List (List (Option ℚ))
  Monsorted : List (List ℚ)
  deriving Repr, DecidableEq

/-- The duplicate-point merge step of `plotA3A4` (DataSet.py 2282-2313),
taken when `np.sum(count>1) > 0`. -/
def plotA3A4MergeDuplicates (PosAll : List (ℚ × ℚ)) (IRe : List (List ℚ))
    (NormRe : List (List (Option ℚ))) (MonRe : List (List ℚ))
    (binningDecimals : ℕ) : MergeResult :=
  ⟨uniqueCols PosAll,
   fancyUpdate [] (sortedRows [] PosAll IRe) (doubleIndexOf PosAll binningDecimals)
     (doubleRows [] PosAll IRe) (fun a b => List.zipWith (· + ·) a b),
   fancyUpdate [] (sortedRows [] PosAll NormRe) (doubleIndexOf PosAll binningDecimals)
     (doubleRows [] PosAll NormRe) (fun a b => List.zipWith nanmean2 a b),
   fancyUpdate [] (sortedRows [] PosAll MonRe) (doubleIndexOf PosAll binningDecimals)
     (doubleRows [] PosAll MonRe) (fun a b => List.zipWith (· + ·) a b)⟩

/-- The last value scattered to index `k` by a fancy-index assignment. -/
def lastAssign {α : Type} (pairs : List (ℕ × α)) (k : ℕ) : Option α :=
  ((pairs.filter (fun p => decide (p.1 = k))).getLast?).map (fun p => p.2)

theorem length_set' {α : Type} : ∀ (l : List α) (i : ℕ) (x : α), (l.set i x).length = l.length := by
  intro l
  induction l with
  | nil => intro i x; cases i <;> rfl
  | cons a tl ih =>
    intro i x
    cases i with
    | zero => rfl
    | succ m => simpa using ih m x

theorem getD_set_self {α : Type} :
    ∀ (l : List α) (i : ℕ) (x d : α), i < l.length → (l.set i x).getD i d = x := by
  intro l
  induction l with
  | nil => intro i x d h; simp at h
  | cons a tl ih =>
    intro i x d h
    cases i with
    | zero => rfl
    | succ m =>
      rw [show (a :: tl).set (m + 1) x = a :: tl.set m x from rfl, List.getD_cons_succ]
      exact ih m x d (by simpa using h)

theorem getD_set_ne {α : Type} :
    ∀ (l : List α) (i k : ℕ) (x d : α), i ≠ k → (l.set i x).getD k d = l.getD k d := by
  intro l
  induction l with
  | nil => intro i k x d _; cases i <;> rfl
  | cons a tl ih =>
    intro i k x d hik
    cases i with
    | zero =>
      cases k with
      | zero => exact absurd rfl hik
      | succ m => rfl
    | succ m =>
      cases k with
      | zero => rfl
      | succ n =>
        rw [show (a :: tl).set (m + 1) x = a :: tl.set m x from rfl,
          List.getD_cons_succ, List.getD_cons_succ]
        exact ih m n x d (fun h => hik (by rw [h]))

theorem lastAssign_cons {α : Type} (p : ℕ × α) (rest : List (ℕ × α)) (k : ℕ) :
    lastAssign (p :: rest) k
      = match lastAssign rest k with
        | some v => some v
        | none => if p.1 = k then some p.2 else none := by
  unfold lastAssign
  rw [List.filter_cons]
  by_cases hp : p.1 = k
  · rw [if_pos (by simpa using hp)]
    cases hrest : (rest.filter (fun q => decide (q.1 = k))) with
    | nil => simp [hp]
    | cons q tl =>
      rw [List.getLast?_cons_cons]
      cases htl' : (q :: tl).getLast? with
      | none => simp at htl'
      | some r => simp [htl']
  · rw [if_neg (by simpa using hp)]
    cases hrest : (rest.filter (fun q => decide (q.1 = k))) with
    | nil => simp [hp]
    | cons q tl =>
      cases htl' : (q :: tl).getLast? with
      | none => simp at htl'
      | some r => simp [htl']

/-- Combine a base row with an optional last-scattered row. -/
def mergedRow {α : Type} (base : α) (o : Option α) (op : α → α → α) : α :=
  match o with
  | some v => op base v
  | none => base

/-- Characterization of buffered fancy-index assignment: position `k` ends up
combining the ORIGINAL row with only the LAST value scattered to `k`. -/
theorem fancyUpdate_getD {α : Type} (dflt : α) (op : α → α → α) :
    ∀ (pairs : List (ℕ × α)) (base acc : List α) (k : ℕ),
      k < base.length → acc.length = base.length →
      ((pairs.foldl (fun acc p => acc.set p.1 (op (base.getD p.1 dflt) p.2)) acc).getD k dflt)
        = match lastAssign pairs k with
          | some v => op (base.getD k dflt) v
          | none => acc.getD k dflt := by
  intro pairs
  induction pairs with
  | nil =>
    intro base acc k _ _
    simp [lastAssign]
  | cons p rest ih =>
    intro base acc k hk hlen
    rw [List.foldl_cons]
    have hlen' : (acc.set p.1 (op (base.getD p.1 dflt) p.2)).length = base.length := by
      rw [length_set', hlen]
    rw [ih base _ k hk hlen', lastAssign_cons]
    cases hrest : lastAssign rest k with
    | some v => rfl
    | none =>
      by_cases hp : p.1 = k
      · subst hp
        rw [getD_set_self acc p.1 _ dflt (by rw [hlen]; exact hk)]
        simp
      · rw [getD_set_ne acc p.1 k _ dflt hp]
        simp [hp]

/-- C8 counterexample: a point duplicated three times.  The merged intensity
is the first occurrence plus only the LAST duplicate row (`1 + 4 = 5`), not
the sum over the duplicates (`1 + 2 + 4 = 7`); the merged normalization is
the two-element nanmean `(1+4)/2` rather than the nanmean over the three
values; the merged monitor likewise keeps `8 + 32`, not `8 + 16 + 32`. -/
theorem claim_C8_counterexample :
    (plotA3A4MergeDuplicates [(0, 0), (0, 0), (0, 0), (1, 1)]
        [[1], [2], [4], [0]] [[some 1], [some 2], [some 4], [some 0]]
        [[8], [16], [32], [0]] 3).Isorted.getD 0 [] = [5] ∧
    (plotA3A4MergeDuplicates [(0, 0), (0, 0), (0, 0), (1, 1)]
        [[1], [2], [4], [0]] [[some 1], [some 2], [some 4], [some 0]]
        [[8], [16], [32], [0]] 3).Normsorted.getD 0 [] = [some (5 / 2)] ∧
    (plotA3A4MergeDuplicates [(0, 0), (0, 0), (0, 0), (1, 1)]
        [[1], [2], [4], [0]] [[some 1], [some 2], [some 4], [some 0]]
        [[8], [16], [32], [0]] 3).Monsorted.getD 0 [] = [40] ∧
    (5 : ℚ) ≠ 1 + 2 + 4 ∧ (5 / 2 : ℚ) ≠ (1 + 2 + 4) / 3 ∧ (40 : ℚ) ≠ 8 + 16 + 32 := by
  refine ⟨?_, ?_, ?_, by norm_num, by norm_num, by norm_num⟩
  · with_unfolding_all rfl
  · with_unfolding_all rfl
  · with_unfolding_all rfl

/-- `fancyUpdate` with the usual `acc = base` start, phrased with
`mergedRow`. -/
theorem fancyUpdate_getD_base {α : Type} (dflt : α) (op : α → α → α)
    (idxs : List ℕ) (vals : List α) (base : List α) (k : ℕ) (hk : k < base.length) :
    (fancyUpdate dflt base idxs vals op).getD k dflt
      = mergedRow (base.getD k dflt) (lastAssign (idxs.zip vals) k) op := by
  unfold fancyUpdate mergedRow
  rw [fancyUpdate_getD dflt op (idxs.zip vals) base base k hk rfl]

/-- C8 (amended): in the duplicate merge of `plotA3A4`, each merged row
combines the kept first occurrence with only the LAST duplicate row scattered
to it (NumPy's buffered fancy assignment): intensity and monitor add that one
duplicate row and normalization is the two-element nanmean with it.  (This
equals the sum / nanmean over all duplicates exactly when each duplicated
point occurs exactly twice.) -/
theorem claim_C8 (PosAll : List (ℚ × ℚ)) (IRe : List (List ℚ))
    (NormRe : List (List (Option ℚ))) (MonRe : List (List ℚ))
    (binningDecimals : ℕ) (k : ℕ) (hk : k < (uniqueCols PosAll).length) :
    (plotA3A4MergeDuplicates PosAll IRe NormRe MonRe binningDecimals).Isorted.getD k []
      = mergedRow ((sortedRows [] PosAll IRe).getD k [])
          (lastAssign ((doubleIndexOf PosAll binningDecimals).zip
            (doubleRows [] PosAll IRe)) k) (fun a b => List.zipWith (· + ·) a b) ∧
    (plotA3A4MergeDuplicates PosAll IRe NormRe MonRe binningDecimals).Normsorted.getD k []
      = mergedRow ((sortedRows [] PosAll NormRe).getD k [])
          (lastAssign ((doubleIndexOf PosAll binningDecimals).zip
            (doubleRows [] PosAll NormRe)) k) (fun a b => List.zipWith nanmean2 a b) ∧
    (plotA3A4MergeDuplicates PosAll IRe NormRe MonRe binningDecimals).Monsorted.getD k []
      = mergedRow ((sortedRows [] PosAll MonRe).getD k [])
          (lastAssign ((doubleIndexOf PosAll binningDecimals).zip
            (doubleRows [] PosAll MonRe)) k) (fun a b => List.zipWith (· + ·) a b) := by
  have hlI : (sortedRows ([] : List ℚ) PosAll IRe).length = (uniqueCols PosAll).length := by
    simp [sortedRows]
  have hlN : (sortedRows ([] : List (Option ℚ)) PosAll NormRe).length
      = (uniqueCols PosAll).length := by
    simp [sortedRows]
  have hlM : (sortedRows ([] : List ℚ) PosAll MonRe).length = (uniqueCols PosAll).length := by
    simp [sortedRows]
  refine ⟨?_, ?_, ?_⟩
  · exact fancyUpdate_getD_base [] (fun a b => List.zipWith (· + ·) a b)
      (doubleIndexOf PosAll binningDecimals) (doubleRows [] PosAll IRe)
      (sortedRows [] PosAll IRe) k (by rw [hlI]; exact hk)
  · exact fancyUpdate_getD_base [] (fun a b => List.zipWith nanmean2 a b)
      (doubleIndexOf PosAll binningDecimals) (doubleRows [] PosAll NormRe)
      (sortedRows [] PosAll NormRe) k (by rw [hlN]; exact hk)
  · exact fancyUpdate_getD_base [] (fun a b => List.zipWith (· + ·) a b)
      (doubleIndexOf PosAll binningDecimals) (doubleRows [] PosAll MonRe)
      (sortedRows [] PosAll MonRe) k (by rw [hlM]; exact hk)

/-- Witness for C8: the triple-duplicate instance, where the merged intensity
row is `[1] + [4] = [5]`. -/
theorem claim_C8_witness :
    (0 < (uniqueCols [((0 : ℚ), (0 : ℚ)), (0, 0), (0, 0), (1, 1)]).length) ∧
    (plotA3A4MergeDuplicates [(0, 0), (0, 0), (0, 0), (1, 1)]
        [[1], [2], [4], [0]] [[some 1], [some 2], [some 4], [some 0]]
        [[8], [16], [32], [0]] 3).Isorted.getD 0 []
      = mergedRow
          ((sortedRows [] [(0, 0), (0, 0), (0, 0), (1, 1)] [[1], [2], [4], [0]]).getD 0 [])
          (lastAssign ((doubleIndexOf [(0, 0), (0, 0), (0, 0), (1, 1)] 3).zip
            (doubleRows [] [(0, 0), (0, 0), (0, 0), (1, 1)] [[1], [2], [4], [0]])) 0)
          (fun a b => List.zipWith (· + ·) a b) :=
  ⟨by with_unfolding_all decide,
    (claim_C8 [(0, 0), (0, 0), (0, 0), (1, 1)] [[1], [2], [4], [0]]
      [[some 1], [some 2], [some 4], [some 0]] [[8], [16], [32], [0]] 3 0
      (by with_unfolding_all decide)).1⟩

/-! ## Voronoi tessellation driver (`voronoiTessellation`, DataSet.py
2808-2902)

The geometric primitives used by the driver (scipy's `Voronoi` and
`ConvexHull`, shapely's polygon union / containment / intersection / area /
boundary coordinates) are external libraries, not code of this repository.
They are abstracted into a `Geometry` oracle over an opaque polygon type `P`,
and the driver's own control flow — grouping, boundary union, the
all-points-inside check, synthetic far-point augmentation, degenerate-region
filtering, edge-cell clipping with largest-area selection, and the final
polygon-count invariant — is embedded faithfully over that oracle.  The C1
claim is about that control flow: every successful return has exactly one
polygon per input point, and a count mismatch raises the descriptive
`AttributeError` instead of returning.

In the `numGroups ≠ 1` branch with an explicitly given `Boundary`, the
source's `points` argument is a bare 2×N coordinate array and
`points[0]`/`points[1]` are its X/Y rows (this is how `plotA3A4` calls it for
multiple merged files); in this embedding, where `points` is a list of
per-group `(X, Y)` row pairs, those rows are the first group's pair. -/

/-- The output of `scipy.spatial.Voronoi` as the driver reads it: the vertex
array and the per-region vertex index lists (`-1` marks the unbounded
vertex). -/
structure VoronoiDiagram where
  vertices : List (ℚ × ℚ)
  regions : List (List ℤ)

/-- Oracle for the external geometry libraries over an opaque polygon type. -/
structure Geometry (P : Type) where
  hull : List (ℚ × ℚ) → P
  mkPoly : List (ℚ × ℚ) → P
  union : P → P → P
  containsPoint : P → ℚ × ℚ → Bool
  containsPoly : P → P → Bool
  intersectionPieces : P → P → List P
  area : P → ℚ
  boundaryCoords : P → List (ℚ × ℚ)
  voronoi : List (ℚ × ℚ) → VoronoiDiagram
  emptyPoly : P

/-- Index of the first maximal entry of a list (`np.argmax`). -/
def argmaxIdx (l : List ℚ) : ℕ :=
  (l.enum.foldl (fun best cur => if best.2 < cur.2 then cur else best) (0, l.headD 0)).1

/-- `numGroups` resolution: `False` (here `none`) means one group per input
file. -/
def tessNumGroups (points : List (List ℚ × List ℚ)) (numGroups : Option ℕ) : ℕ :=
  match numGroups with
  | none => points.length
  | some n => n

/-- The flat X coordinates the driver works with (see the module comment for
the `numGroups ≠ 1`, explicit-`Boundary` branch). -/
def tessPointsX (points : List (List ℚ × List ℚ)) (boundaryGiven : Bool) (ng : ℕ) :
    List ℚ :=
  if ng = 1 then (points.getD 0 ([], [])).1
  else if boundaryGiven then (points.getD 0 ([], [])).1
  else (points.map (fun g => g.1)).flatten

/-- The flat Y coordinates, symmetrically to `tessPointsX`. -/
def tessPointsY (points : List (List ℚ × List ℚ)) (boundaryGiven : Bool) (ng : ℕ) :
    List ℚ :=
  if ng = 1 then (points.getD 0 ([], [])).2
  else if boundaryGiven then (points.getD 0 ([], [])).2
  else (points.map (fun g => g.2)).flatten

/-- Boundary resolution, combined-boundary union and the
all-points-contained check (steps 1-2): produces the combined boundary and
the flat point coordinates, or the source's errors (`IndexError` for fewer
than two boundaries to union, the `AttributeError` for an under-covering
boundary). -/
def tessSetup {P : Type} (G : Geometry P) (points : List (List ℚ × List ℚ))
    (Boundary : Option (List P)) (numGroups : Option ℕ) :
    Except String (P × List ℚ × List ℚ) :=
  let ng := tessNumGroups points numGroups
  let BoundPoly : List P :=
    match Boundary with
    | none => (List.range ng).map (fun i =>
        G.hull (hullCandidates (points.getD i ([], [])).1 (points.getD i ([], [])).2))
    | some b => b
  let pointsX := tessPointsX points Boundary.isSome ng
  let pointsY := tessPointsY points Boundary.isSome ng
  if ng = 1 then
    let combiPoly := BoundPoly.getD 0 G.emptyPoly
    if (List.range pointsX.length).all (fun i =>
        G.containsPoint combiPoly (pointsX.getD i 0, pointsY.getD i 0)) then
      Except.ok (combiPoly, pointsX, pointsY)
    else
      Except.error "The provided boundary does not contain all points"
  else
    match BoundPoly with
    | b0 :: b1 :: rest =>
      let combiPoly := rest.foldl G.union (G.union b0 b1)
      if (List.range pointsX.length).all (fun i =>
          G.containsPoint combiPoly (pointsX.getD i 0, pointsY.getD i 0)) then
        Except.ok (combiPoly, pointsX, pointsY)
      else
        Except.error "The provided boundary does not contain all points"
    | _ => Except.error "list index out of range"

/-- Steps 3-6: augment with the 8 synthetic far points, compute the Voronoi
diagram, discard regions with fewer than 3 vertices or touching the unbounded
region, classify interior/edge cells, clip edge cells to the boundary keeping
the largest-area piece, and concatenate interior cells before clipped edge
cells. -/
def tessPolygons {P : Type} (G : Geometry P) (combiPoly : P)
    (pointsX pointsY : List ℚ) : List P :=
  let meanX := pointsX.sum / pointsX.length
  let meanY := pointsY.sum / pointsY.length
  let extraPoints : List (ℚ × ℚ) :=
    [(meanX, npMax pointsY + 50), (meanX, npMin pointsY - 50),
     (npMin pointsX - 50, meanY), (npMax pointsX + 50, meanY),
     (npMin pointsX - 50, npMax pointsY + 50), (npMin pointsX - 50, npMin pointsY - 50),
     (npMax pointsX + 50, npMax pointsY + 50), (npMax pointsX + 50, npMin pointsY - 50)]
  let AllPoints := (List.range pointsX.length).map
    (fun i => (pointsX.getD i 0, pointsY.getD i 0)) ++ extraPoints
  let vor := G.voronoi AllPoints
  let goodRegions := vor.regions.filter (fun reg =>
    decide (2 < reg.length) && decide (¬ (-1 : ℤ) ∈ reg))
  let PolyPoints := goodRegions.map (fun reg =>
    reg.map (fun idx => vor.vertices.getD idx.toNat (0, 0)))
  let polygons := PolyPoints.map G.mkPoly
  let insidePolygons := polygons.filter (fun p => G.containsPoly combiPoly p)
  let edgePolygons := polygons.filter (fun p => ¬ G.containsPoly combiPoly p)
  let intersectionPolygon := edgePolygons.map (fun poly =>
    let pieces := G.intersectionPieces poly combiPoly
    if pieces.length = 1 then pieces.getD 0 G.emptyPoly
    else pieces.getD (argmaxIdx (pieces.map G.area)) G.emptyPoly)
  insidePolygons ++ intersectionPolygon

/-- The message of the polygon-count invariant violation. -/
def mismatchMessage (npts npoly : ℕ) : String :=
  "The number of points given(" ++ toString npts
    ++ ") is not the same as the number of polygons created(" ++ toString npoly
    ++ "). This can be due to many reasons, mainly:\n - Points overlap exactly\n"
    ++ " - Points coinsides with the calulated edge\n - ??"

/-- `voronoiTessellation(points, plot, Boundary, numGroups)`.  The `plot`
branches only draw figures and are omitted.  The second returned component is
`[np.array(P.boundary.coords[:-1]) for P in Polygons]`. -/
def voronoiTessellation {P : Type} (G : Geometry P) (points : List (List ℚ × List ℚ))
    (Boundary : Option (List P)) (numGroups : Option ℕ) :
    Except String (List P × List (List (ℚ × ℚ))) :=
  match tessSetup G points Boundary numGroups with
  | Except.error e => Except.error e
  | Except.ok (combiPoly, pointsX, pointsY) =>
    let Polygons := tessPolygons G combiPoly pointsX pointsY
    if ¬ pointsX.length = Polygons.length then
      Except.error (mismatchMessage pointsX.length Polygons.length)
    else
      Except.ok (Polygons, Polygons.map (fun p => (G.boundaryCoords p).dropLast))

/-- C1: whenever `voronoiTessellation` returns, the number of returned
polygons equals the number of input points (synthetic augmentation points
excluded), and whenever the computed polygon count differs from the point
count the function raises the descriptive `AttributeError` instead of
returning a partial result. -/
theorem claim_C1 {P : Type} (G : Geometry P) (points : List (List ℚ × List ℚ))
    (Boundary : Option (List P)) (numGroups : Option ℕ)
    (combiPoly : P) (pointsX pointsY : List ℚ)
    (hsetup : tessSetup G points Boundary numGroups
      = Except.ok (combiPoly, pointsX, pointsY)) :
    (∀ res, voronoiTessellation G points Boundary numGroups = Except.ok res →
      res.1.length = pointsX.length) ∧
    ((tessPolygons G combiPoly pointsX pointsY).length ≠ pointsX.length →
      voronoiTessellation G points Boundary numGroups
        = Except.error (mismatchMessage pointsX.length
            (tessPolygons G combiPoly pointsX pointsY).length)) := by
  constructor
  · intro res hres
    simp only [voronoiTessellation, hsetup] at hres
    by_cases hc : pointsX.length = (tessPolygons G combiPoly pointsX pointsY).length
    · rw [if_neg (by simpa using hc)] at hres
      injection hres with hres
      rw [← hres, hc]
    · rw [if_pos (by simpa using hc)] at hres
      exact absurd hres (by simp)
  · intro hne
    simp only [voronoiTessellation, hsetup]
    rw [if_pos (by simpa using fun h => hne h.symm)]

/-- The trivial geometry oracle used by the C1 witness: polygons carry no
data and the Voronoi diagram is fixed. -/
def unitGeom (vor : VoronoiDiagram) : Geometry Unit :=
  { hull := fun _ => ()
    mkPoly := fun _ => ()
    union := fun _ _ => ()
    containsPoint := fun _ _ => true
    containsPoly := fun _ _ => true
    intersectionPieces := fun _ _ => [()]
    area := fun _ => 0
    boundaryCoords := fun _ => []
    voronoi := fun _ => vor
    emptyPoly := () }

/-- Witness for C1: a one-point input whose oracle diagram yields exactly one
polygon returns it, and an oracle diagram yielding no polygon makes the call
fail with the count-mismatch message. -/
theorem claim_C1_witness :
    (tessSetup (unitGeom ⟨[(0, 0), (1, 0), (0, 1)], [[0, 1, 2]]⟩) [([0], [0])]
        (some [()]) none = Except.ok ((), [0], [0]) ∧
      voronoiTessellation (unitGeom ⟨[(0, 0), (1, 0), (0, 1)], [[0, 1, 2]]⟩) [([0], [0])]
        (some [()]) none = Except.ok ([()], [[]]) ∧
      ([()] : List Unit).length = ([(0 : ℚ)] : List ℚ).length) ∧
    (tessSetup (unitGeom ⟨[], []⟩) [([0], [0])] (some [()]) none
        = Except.ok ((), [0], [0]) ∧
      (tessPolygons (unitGeom ⟨[], []⟩) () [0] [0]).length ≠ ([(0 : ℚ)] : List ℚ).length ∧
      voronoiTessellation (unitGeom ⟨[], []⟩) [([0], [0])] (some [()]) none
        = Except.error (mismatchMessage ([(0 : ℚ)] : List ℚ).length
            (tessPolygons (unitGeom ⟨[], []⟩) () [0] [0]).length)) := by
  refine ⟨⟨?_, ?_, ?_⟩, ⟨?_, ?_, ?_⟩⟩
  · with_unfolding_all rfl
  · with_unfolding_all rfl
  · exact (claim_C1 (unitGeom ⟨[(0, 0), (1, 0), (0, 1)], [[0, 1, 2]]⟩) [([0], [0])]
      (some [()]) none () [0] [0] (by with_unfolding_all rfl)).1 ([()], [[]])
      (by with_unfolding_all rfl)
  · with_unfolding_all rfl
  · with_unfolding_all decide
  · exact (claim_C1 (unitGeom ⟨[], []⟩) [([0], [0])] (some [()]) none () [0] [0]
      (by with_unfolding_all rfl)).2 (by with_unfolding_all decide)

end MJOLNIR
